import Mathlib

/-!
# Verification of the insight_mapping EDA engine against its specification

This file gives a shallow embedding, in Lean 4, of the statistical core of the
`insight_mapping` repository (correlation_analysis.py, utils.py,
cleaning_insights.py, data_loader.py, main.py) and proves or refutes the
frozen behavioural claims about it.

Modelling conventions:
* Python/numpy floating-point arithmetic is idealised as exact rational (`ℚ`)
  arithmetic; `np.sqrt` becomes `Real.sqrt`.
* Lean's junk value `x / 0 = 0` on `ℚ` is used exactly where the source
  relies on `np.nan_to_num` turning the `0/0 → NaN` cells of the chi-squared
  sum into `0`; for the non-negative integer count matrices produced by
  `pd.crosstab` the `inf` branch of `nan_to_num` is unreachable (a cell with a
  positive observation has positive row, column and grand totals, hence a
  positive expected frequency), so the two conventions agree on the whole
  domain of the function.
* A pandas value that is floating-point NaN is modelled as `Option.none`.
-/

namespace InsightMapping

/-! ## Contingency tables

A contingency table (the result of `pd.crosstab`, i.e. `confusion_matrix` in
correlation_analysis.py) is a matrix of non-negative integer counts, modelled
as a list of rows. `numRows`/`numCols` model `DataFrame.shape`, `grandTotal`
models `confusion_matrix.to_numpy().sum()`. -/

abbrev CTable := List (List ℕ)

def numRows (m : CTable) : ℕ := m.length

def numCols (m : CTable) : ℕ := (m.headD []).length

/-- A table as produced by `pd.crosstab` is rectangular. -/
def Rectangular (m : CTable) : Prop := ∀ row ∈ m, row.length = numCols m

instance (m : CTable) : Decidable (Rectangular m) := List.decidableBAll _ m

/-- `observed.sum()` — the grand total of the table. -/
def grandTotal (m : CTable) : ℕ := (m.map List.sum).sum

/-- `observed.sum(axis=0)[j]` — the `j`-th column total. -/
def colSum (m : CTable) (j : ℕ) : ℕ := (m.map (fun row => row.getD j 0)).sum

/-- One cell of the chi-squared sum: `(observed - expected)**2 / expected`,
with `np.nan_to_num` sending the `0/0` cell (expected `0`, observed `0`) to
`0`, which is Lean's `x / 0 = 0` convention on `ℚ`. -/
def chiTerm (o : ℚ) (e : ℚ) : ℚ := (o - e) ^ 2 / e

/-- Embeds `ss_chi2` (correlation_analysis.py:40-51).  The guard mirrors
`observed.size == 0`; `expected = row_sum @ col_sum / total if total else 0`
is the per-cell `row.sum * colSum j / total`, which is also `0` under Lean's
division convention when `total = 0`. -/
def ss_chi2 (m : CTable) : ℚ :=
  if numRows m = 0 ∨ numCols m = 0 then 0
  else
    (m.map (fun row =>
      ((List.range (numCols m)).map (fun j =>
        chiTerm (row.getD j 0)
          ((row.sum : ℚ) * (colSum m j : ℚ) / (grandTotal m : ℚ)))).sum)).sum

/-- The rational number whose square root `cramers_v`
(correlation_analysis.py:24-37) returns; the two `return 0.0` guards are the
two `0` branches (`Real.sqrt 0 = 0`). -/
def cramers_v_sq (m : CTable) : ℚ :=
  let chi2 := ss_chi2 m
  let n : ℕ := grandTotal m
  if n = 0 then 0
  else
    let phi2 : ℚ := chi2 / (n : ℚ)
    let r : ℚ := (numRows m : ℚ)
    let k : ℚ := (numCols m : ℚ)
    let phi2corr : ℚ :=
      if 1 < n then max 0 (phi2 - (k - 1) * (r - 1) / ((n : ℚ) - 1)) else 0
    let rcorr : ℚ := if 1 < n then r - (r - 1) ^ 2 / ((n : ℚ) - 1) else 0
    let kcorr : ℚ := if 1 < n then k - (k - 1) ^ 2 / ((n : ℚ) - 1) else 0
    let denom : ℚ := min (kcorr - 1) (rcorr - 1)
    if denom ≤ 0 then 0 else phi2corr / denom

/-- Embeds `cramers_v` (correlation_analysis.py:24-37):
`float(np.sqrt(phi2corr / denom))`, with the `n == 0` and `denom <= 0`
guards returning `0.0`. -/
noncomputable def cramers_v (m : CTable) : ℝ := Real.sqrt (cramers_v_sq m)

/-! ## Claim-side formulations (C1, C2)

These two definitions follow the words of the specification text, to be
compared with the source-derived `ss_chi2` and `cramers_v` above. -/

/-- Claim C2's formulation of the chi-squared statistic: sum over cells of
`(observed − expected)² / expected` with `expected = rowTotal * colTotal /
grandTotal`, a cell with `expected = 0` contributing exactly `0`, and the
whole statistic being `0` when the grand total is `0`. -/
def chi2_claim (m : CTable) : ℚ :=
  if grandTotal m = 0 then 0
  else
    (m.map (fun row =>
      ((List.range (numCols m)).map (fun j =>
        let e : ℚ := (row.sum : ℚ) * (colSum m j : ℚ) / (grandTotal m : ℚ)
        if e = 0 then 0 else ((row.getD j 0 : ℚ) - e) ^ 2 / e)).sum)).sum

/-- Claim C1's `φ²_corr = max 0 (φ² − (k−1)(r−1)/(n−1))` with `φ² = χ²/n`
and the correction term equal to `0` when `n ≤ 1`. -/
def claim_phi2corr (m : CTable) : ℚ :=
  let n : ℕ := grandTotal m
  let phi2 : ℚ := ss_chi2 m / (n : ℚ)
  let c1 : ℚ :=
    if n ≤ 1 then 0
    else ((numCols m : ℚ) - 1) * ((numRows m : ℚ) - 1) / ((n : ℚ) - 1)
  max 0 (phi2 - c1)

/-- Claim C1's `denom = min (k_corr − 1) (r_corr − 1)` with
`r_corr = r − (r−1)²/(n−1)`, `k_corr = k − (k−1)²/(n−1)`, the correction
terms equal to `0` when `n ≤ 1`. -/
def claim_denom (m : CTable) : ℚ :=
  let n : ℕ := grandTotal m
  let c2 : ℚ := if n ≤ 1 then 0 else ((numRows m : ℚ) - 1) ^ 2 / ((n : ℚ) - 1)
  let c3 : ℚ := if n ≤ 1 then 0 else ((numCols m : ℚ) - 1) ^ 2 / ((n : ℚ) - 1)
  min (((numCols m : ℚ) - c3) - 1) (((numRows m : ℚ) - c2) - 1)

/-- The rational under the square root of the claim's formula, with the
claim's `0` branches. -/
def cramers_v_claim_sq (m : CTable) : ℚ :=
  if grandTotal m = 0 then 0
  else if claim_denom m ≤ 0 then 0
  else claim_phi2corr m / claim_denom m

/-- Claim C1's formulation of Cramér's V: the result is `0` whenever
`n = 0` or `denom ≤ 0`, and `sqrt (φ²_corr / denom)` otherwise. -/
noncomputable def cramers_v_claim (m : CTable) : ℝ :=
  if grandTotal m = 0 then 0
  else if claim_denom m ≤ 0 then 0
  else Real.sqrt (claim_phi2corr m / claim_denom m)

/-! ## Abstract (Finset-indexed) view of the chi-squared statistic

`ss_chi2` traverses the table as nested lists; for the analytic bounds of
claim C4 it is re-expressed as a double `Finset.range` sum over an abstract
cell function `O`.  `entry m i j` is `observed[i, j]`. -/

def entry (m : CTable) (i j : ℕ) : ℕ := (m.getD i []).getD j 0

/-- Row total of an abstract `r × k` table of cells `O`. -/
def rTot (k : ℕ) (O : ℕ → ℕ → ℚ) (i : ℕ) : ℚ := ∑ j ∈ Finset.range k, O i j

/-- Column total of an abstract `r × k` table of cells `O`. -/
def cTot (r : ℕ) (O : ℕ → ℕ → ℚ) (j : ℕ) : ℚ := ∑ i ∈ Finset.range r, O i j

/-- Grand total of an abstract `r × k` table of cells `O`. -/
def nTot (r k : ℕ) (O : ℕ → ℕ → ℚ) : ℚ := ∑ i ∈ Finset.range r, rTot k O i

/-- The chi-squared statistic of an abstract `r × k` table. -/
def chi2F (r k : ℕ) (O : ℕ → ℕ → ℚ) : ℚ :=
  ∑ i ∈ Finset.range r, ∑ j ∈ Finset.range k,
    chiTerm (O i j) (rTot k O i * cTot r O j / nTot r k O)

/-! ## The table data model

A loaded DataFrame is a list of named, typed columns of equal length.
Cell values are numbers (`Sum.inl`, covering int/float columns and booleans
as 0/1) or text (`Sum.inr`, object columns); a pandas missing value
(NaN/None) is `Option.none`. -/

/-- The pandas dtype families the repository's classifier distinguishes:
integer, floating, boolean, object (text), and any other dtype (e.g.
datetime), which is neither numeric, boolean nor object. -/
inductive Dtype
  | intDT
  | floatDT
  | boolDT
  | objDT
  | otherDT
deriving DecidableEq

abbrev Val := ℚ ⊕ String

/-- One DataFrame column: name, declared dtype, and cell values. -/
structure Column where
  name : String
  dtype : Dtype
  vals : List (Option Val)
deriving DecidableEq

abbrev Table := List Column

/-! ### Column classifier (utils.py) -/

/-- `pd.api.types.is_numeric_dtype`: true for integer, floating *and*
boolean dtypes (numpy booleans are a numeric dtype). -/
def is_numeric_dtype : Dtype → Bool
  | .intDT => true
  | .floatDT => true
  | .boolDT => true
  | .objDT => false
  | .otherDT => false

/-- `pd.api.types.is_bool_dtype`. -/
def is_bool_dtype : Dtype → Bool
  | .boolDT => true
  | _ => false

/-- `pd.api.types.is_object_dtype`. -/
def is_object_dtype : Dtype → Bool
  | .objDT => true
  | _ => false

/-- `series.nunique(dropna=True)`: number of distinct non-missing values. -/
def nunique (c : Column) : ℕ := (c.vals.filterMap id).dedup.length

/-- `is_numeric` (utils.py:25-26). -/
def is_numeric (c : Column) : Bool := is_numeric_dtype c.dtype

/-- `is_categorical` (utils.py:29-33); the source's `max_unique` keyword
default is 50 and is passed explicitly here. -/
def is_categorical (max_unique : ℕ) (c : Column) : Bool :=
  if is_bool_dtype c.dtype || is_object_dtype c.dtype then true
  else decide (nunique c ≤ max_unique) && !(is_numeric c)

/-- `get_numeric_columns` (utils.py:60-61).  Column names are assumed
unique (a DataFrame indexing invariant), so selecting by name is selecting
the column itself. -/
def get_numeric_columns (t : Table) : List String :=
  (t.filter (fun c => is_numeric c)).map Column.name

/-- `get_categorical_columns` (utils.py:64-65). -/
def get_categorical_columns (t : Table) : List String :=
  (t.filter (fun c => is_categorical 50 c)).map Column.name

/-! ### Pearson correlation (pandas `DataFrame.corr`) -/

/-- Pairwise complete numeric observations of two series: rows where both
cells hold a non-missing number. -/
def pairedObs (xs ys : List (Option Val)) : List (ℚ × ℚ) :=
  (xs.zip ys).filterMap (fun p =>
    match p with
    | (some (Sum.inl a), some (Sum.inl b)) => some (a, b)
    | _ => none)

/-- The non-missing numeric values of a series (`series.dropna()` on a
numeric column). -/
def obsOf (xs : List (Option Val)) : List ℚ :=
  xs.filterMap (fun o =>
    match o with
    | some (Sum.inl a) => some a
    | _ => none)

def meanL (l : List ℚ) : ℚ := l.sum / (l.length : ℚ)

/-- Sum of squared deviations from the mean. -/
def ssqDev (l : List ℚ) : ℚ := (l.map (fun x => (x - meanL l) ^ 2)).sum

/-- Pearson's r over the pairwise complete observations, modelling pandas
`DataFrame.corr` (`nancorr`): `cov / sqrt(ssx * ssy)`, which is NaN
(`none`) when there are no paired observations or when either column has a
zero squared-deviation sum over them (divisor `0`). -/
noncomputable def pearson (xs ys : List (Option Val)) : Option ℝ :=
  let ps := pairedObs xs ys
  let px := ps.map Prod.fst
  let py := ps.map Prod.snd
  if ps.length = 0 ∨ ssqDev px = 0 ∨ ssqDev py = 0 then none
  else
    some ((((ps.map (fun p => (p.1 - meanL px) * (p.2 - meanL py))).sum : ℚ) : ℝ)
      / Real.sqrt (((ssqDev px : ℚ) : ℝ) * ((ssqDev py : ℚ) : ℝ)))

/-- `numeric_correlation` (correlation_analysis.py:17-21): the labels and
entries of `df[numeric_cols].corr()`; empty when no column is numeric. -/
noncomputable def numeric_correlation (t : Table) :
    List String × List (List (Option ℝ)) :=
  let nc := t.filter (fun c => is_numeric c)
  if nc.isEmpty then ([], [])
  else (nc.map Column.name,
    nc.map (fun cx => nc.map (fun cy => pearson cx.vals cy.vals)))

/-! ### Categorical correlation -/

/-- Non-missing joint observations of two columns — the rows `pd.crosstab`
counts (rows where either value is missing are dropped). -/
def jointObs (xs ys : List (Option Val)) : List (Val × Val) :=
  (xs.zip ys).filterMap (fun p =>
    match p with
    | (some a, some b) => some (a, b)
    | _ => none)

/-- `pd.crosstab(df[x], df[y])`: the contingency table of joint frequency
counts.  Row labels are the distinct observed x-values and column labels
the distinct observed y-values, here in first-occurrence order (pandas
sorts the labels; every quantity derived from the table below is invariant
under simultaneous relabelling, and first-occurrence order makes
`crosstab ys xs` literally the transpose of `crosstab xs ys`). -/
def crosstab (xs ys : List (Option Val)) : CTable :=
  let ps := jointObs xs ys
  let ax := (ps.map Prod.fst).dedup
  let ay := (ps.map Prod.snd).dedup
  ax.map (fun a => ay.map (fun b => ps.countP (fun q => decide (q = (a, b)))))

/-- `categorical_correlation` (correlation_analysis.py:54-67): `1.0` on the
diagonal (name equality), `cramers_v` of the pair's crosstab elsewhere;
empty when fewer than two categorical columns exist. -/
noncomputable def categorical_correlation (t : Table) :
    List String × List (List ℝ) :=
  let cc := t.filter (fun c => is_categorical 50 c)
  if cc.length < 2 then ([], [])
  else (cc.map Column.name,
    cc.map (fun cx => cc.map (fun cy =>
      if cx.name = cy.name then (1 : ℝ)
      else cramers_v (crosstab cx.vals cy.vals))))

/-! ### Cleaning diagnostics (cleaning_insights.py) -/

/-- `len(df)`: the row count (columns of a DataFrame have equal length). -/
def nrows (t : Table) : ℕ := (t.headD ⟨"", Dtype.objDT, []⟩).vals.length

/-- All columns really have `nrows t` values. -/
def WellFormedT (t : Table) : Prop := ∀ c ∈ t, c.vals.length = nrows t

instance (t : Table) : Decidable (WellFormedT t) := List.decidableBAll _ t

/-- Row `i` of the frame, as the tuple of its cells. -/
def rowAt (t : Table) (i : ℕ) : List (Option Val) :=
  t.map (fun c => c.vals.getD i none)

/-- Whether row `i` duplicates an earlier row — pandas `duplicated()`
marks every occurrence after the first; missing values compare equal. -/
def dupAt (t : Table) (i : ℕ) : Bool :=
  (List.range i).any (fun j => decide (rowAt t j = rowAt t i))

/-- `int(df.duplicated().sum())`. -/
def dup_count (t : Table) : ℕ :=
  ((List.range (nrows t)).filter (fun i => dupAt t i)).length

/-- `int(df.duplicated(subset=[col]).sum())` for a single column. -/
def dup_count_col (c : Column) : ℕ :=
  ((List.range c.vals.length).filter (fun i =>
    (List.range i).any (fun j =>
      decide (c.vals.getD j none = c.vals.getD i none)))).length

/-- Python's `round` on exact rationals: round half to even (banker's
rounding); float representation artifacts are idealised away. -/
def roundHalfEven (q : ℚ) : ℤ :=
  if q - ⌊q⌋ < 1 / 2 then ⌊q⌋
  else if 1 / 2 < q - ⌊q⌋ then ⌊q⌋ + 1
  else if Even ⌊q⌋ then ⌊q⌋ else ⌊q⌋ + 1

/-- `round(q, d)`. -/
def pyRound (q : ℚ) (d : ℕ) : ℚ := (roundHalfEven (q * 10 ^ d) : ℚ) / 10 ^ d

/-- `df.size`: rows × columns. -/
def dsize (t : Table) : ℕ := nrows t * t.length

/-- `df.isna().sum().sum()`: total missing cells, summed column-wise as the
source does. -/
def missing_cells (t : Table) : ℕ :=
  (t.map (fun c => (c.vals.filter (fun v => v.isNone)).length)).sum

structure DupSummary where
  duplicate_rows : ℕ
  duplicate_percent : ℚ
  total_rows : ℕ
  unique_rows : ℕ
  duplicates_by_column : List (String × ℕ)
deriving DecidableEq

/-- `duplicate_rows_summary` (cleaning_insights.py:37-50).  The percentage
is guarded by the source's `if len(df) else 0`. -/
def duplicate_rows_summary (t : Table) : DupSummary :=
  let dup := dup_count t
  { duplicate_rows := dup
    duplicate_percent :=
      if nrows t ≠ 0 then pyRound ((dup : ℚ) / (nrows t : ℚ) * 100) 2 else 0
    total_rows := nrows t
    unique_rows := nrows t - dup
    duplicates_by_column := t.map (fun c => (c.name, dup_count_col c)) }

structure QualityScore where
  completeness_score : Option ℚ
  uniqueness_score : Option ℚ
  overall_score : Option ℚ
deriving DecidableEq

/-- The `uniqueness` value of `data_quality_score`, with the source's
`if len(df) else 100` guard. -/
def uniquenessQ (t : Table) : ℚ :=
  if nrows t ≠ 0 then
    ((nrows t : ℚ) - (dup_count t : ℚ)) / (nrows t : ℚ) * 100
  else 100

/-- `data_quality_score` (cleaning_insights.py:53-61). -/
def data_quality_score (t : Table) : QualityScore :=
  let completeness : Option ℚ :=
    if dsize t = 0 then none
    else some ((1 - (missing_cells t : ℚ) / (dsize t : ℚ)) * 100)
  let uniqueness : ℚ := uniquenessQ t
  -- cleaning_insights.py:53-61: `df.isna().sum().sum() / df.size` has
  -- numpy-integer operands, so a zero-cell frame gives numpy 0/0 = NaN
  -- (a runtime warning, not an exception), modelled as `none`; the NaN
  -- then propagates through `round` and the mean.
  { completeness_score := completeness.map (fun c => pyRound c 2)
    uniqueness_score := some (pyRound uniqueness 2)
    overall_score := completeness.map (fun c => pyRound ((c + uniqueness) / 2) 2) }

/-! ### Outlier detection (cleaning_insights.py:88-126) -/

/-- `np.number` dtypes: integer and floating.
`select_dtypes(include=[np.number])` does *not* select bool columns. -/
def is_np_number : Dtype → Bool
  | .intDT => true
  | .floatDT => true
  | _ => false

/-- `df[col].dropna()` for a numeric column. -/
def dropna (c : Column) : List ℚ := obsOf c.vals

/-- `Series.quantile(p)` with pandas' default linear interpolation on the
sorted values: position `h = (n−1)p`, result
`s[⌊h⌋] + (h − ⌊h⌋)(s[⌊h⌋+1] − s[⌊h⌋])`. -/
def quantile (l : List ℚ) (p : ℚ) : ℚ :=
  let s := List.insertionSort (· ≤ ·) l
  let h : ℚ := ((s.length : ℚ) - 1) * p
  let i : ℕ := (⌊h⌋).toNat
  s.getD i 0 + (h - (i : ℚ)) * (s.getD (i + 1) 0 - s.getD i 0)

structure OutlierInfo where
  outlier_count : ℕ
  outlier_percent : ℚ
  lower_bound : ℚ
  upper_bound : ℚ
deriving DecidableEq

/-- `outlier_detection(df, method="iqr")`, the IQR branch (the z-score
branch is not the subject of any claim and needs a square root, so only
`method="iqr"` is embedded).  Columns are the `np.number`-typed ones;
all-missing columns are skipped (`continue`); outliers are the values
strictly outside the unrounded fences; the reported bounds are rounded to
4 decimals, the percentage to 2. -/
def outlier_detection_iqr (t : Table) : List (String × OutlierInfo) :=
  t.filterMap (fun c =>
    if is_np_number c.dtype then
      let series := dropna c
      if series.length = 0 then none
      else
        let q1 := quantile series (1 / 4)
        let q3 := quantile series (3 / 4)
        let iqr := q3 - q1
        let lower := q1 - 3 / 2 * iqr
        let upper := q3 + 3 / 2 * iqr
        let outliers := series.filter (fun x =>
          decide (x < lower) || decide (upper < x))
        some (c.name,
          { outlier_count := outliers.length
            outlier_percent :=
              pyRound ((outliers.length : ℚ) / (series.length : ℚ) * 100) 2
            lower_bound := pyRound lower 4
            upper_bound := pyRound upper 4 })
    else none)

/-- Claim C7's per-column IQR outlier report: `Q1`, `Q3`, `IQR = Q3 − Q1`,
fences `Q1 − 1.5·IQR` and `Q3 + 1.5·IQR`, outliers exactly the values
strictly outside the fences; bounds rounded to 4 decimals and the
percentage to 2 in the report. -/
def iqr_outlier_claim (c : Column) : OutlierInfo :=
  let s := dropna c
  let q1 := quantile s (1 / 4)
  let q3 := quantile s (3 / 4)
  let lower := q1 - 3 / 2 * (q3 - q1)
  let upper := q3 + 3 / 2 * (q3 - q1)
  let flagged := s.filter (fun x => decide (x < lower) || decide (upper < x))
  { outlier_count := flagged.length
    outlier_percent := pyRound ((flagged.length : ℚ) / (s.length : ℚ) * 100) 2
    lower_bound := pyRound lower 4
    upper_bound := pyRound upper 4 }

/-! ### Loader and run skeleton (data_loader.py, main.py) -/

inductive LoadErr
  | file_not_found
  | unsupported_file_type
deriving DecidableEq

/-- An input path: the path string and its extension (`Path.suffix`,
original case). -/
structure PyPath where
  name : String
  suffix : String
deriving DecidableEq

/-- The file system: existing paths together with the table each file's
contents denote (parsing by the pandas readers is abstracted; it is not
part of this repository). -/
abbrev FileSystem := List (String × Table)

def csv_suffixes : List String := [".csv", ".tsv", ".txt"]

def excel_suffixes : List String := [".xlsx", ".xls"]

def json_suffixes : List String := [".json", ".jsonl"]

/-- `str.lower` on one character (the extensions at issue are ASCII). -/
def lowerChar (c : Char) : Char :=
  if c.isUpper then Char.ofNat (c.toNat + 32) else c

/-- `suffix.lower()` (`String.toLower` itself does not reduce in the
kernel, so the map is spelled out). -/
def pyLower (s : String) : String := ⟨s.data.map lowerChar⟩

/-- `load_data` (data_loader.py:16-63): existence check first
(`FileNotFoundError`), then dispatch on the lower-cased extension, with
`ValueError` for an unrecognised one. -/
def load_data (fs : FileSystem) (p : PyPath) : Except LoadErr (Table × String) :=
  match fs.lookup p.name with
  | none => .error .file_not_found
  | some tbl =>
    let suffix := pyLower p.suffix
    if suffix ∈ csv_suffixes then .ok (tbl, "csv")
    else if suffix ∈ excel_suffixes then .ok (tbl, "excel")
    else if suffix ∈ json_suffixes then .ok (tbl, "json")
    else if suffix = ".parquet" then .ok (tbl, "parquet")
    else .error .unsupported_file_type

structure RunResult where
  exitCode : ℕ
  analysisRan : Bool
  reportWritten : Bool
deriving DecidableEq

/-- The load/report skeleton of `main` (main.py:150-181): a
`FileNotFoundError` or `ValueError` from `load_data` is caught, logged and
the process exits with code 1 before `build_report` runs and before any
report file is produced; a successful load runs the analysis and writes
both reports. -/
def main_run (fs : FileSystem) (p : PyPath) : RunResult :=
  match load_data fs p with
  | .error _ => ⟨1, false, false⟩
  | .ok _ => ⟨0, true, true⟩

/-! ## End of definitions: lemmas and theorems follow -/

/-! ### Basic facts about the chi-squared statistic -/

lemma chiTerm_nonneg {o e : ℚ} (he : 0 ≤ e) : 0 ≤ chiTerm o e :=
  div_nonneg (sq_nonneg _) he

lemma expected_nonneg (row : List ℕ) (m : CTable) (j : ℕ) :
    (0 : ℚ) ≤ (row.sum : ℚ) * (colSum m j : ℚ) / (grandTotal m : ℚ) :=
  div_nonneg (mul_nonneg (Nat.cast_nonneg _) (Nat.cast_nonneg _))
    (Nat.cast_nonneg _)

lemma ss_chi2_nonneg (m : CTable) : 0 ≤ ss_chi2 m := by
  unfold ss_chi2
  split
  · exact le_refl 0
  · apply List.sum_nonneg
    intro x hx
    obtain ⟨row, _, rfl⟩ := List.mem_map.mp hx
    apply List.sum_nonneg
    intro y hy
    obtain ⟨j, _, rfl⟩ := List.mem_map.mp hy
    exact chiTerm_nonneg (expected_nonneg _ _ _)

/-- An entry of a row is at most the row's sum. -/
lemma getD_le_sum (row : List ℕ) (j : ℕ) : row.getD j 0 ≤ row.sum := by
  induction row generalizing j with
  | nil => simp
  | cons a l ih =>
    cases j with
    | zero => simp
    | succ j => simpa using le_add_left (ih j)

/-- An entry of a member row is at most the corresponding column sum. -/
lemma getD_le_colSum {m : CTable} {row : List ℕ} (h : row ∈ m) (j : ℕ) :
    row.getD j 0 ≤ colSum m j := by
  unfold colSum
  exact List.single_le_sum (fun x _ => Nat.zero_le x) _
    (List.mem_map.mpr ⟨row, h, rfl⟩)

/-- A member row's sum is at most the grand total. -/
lemma rowSum_le_grandTotal {m : CTable} {row : List ℕ} (h : row ∈ m) :
    row.sum ≤ grandTotal m :=
  List.single_le_sum (fun x _ => Nat.zero_le x) _
    (List.mem_map.mpr ⟨row, h, rfl⟩)

/-- Column sums never exceed the grand total. -/
lemma colSum_le_grandTotal (m : CTable) (j : ℕ) :
    colSum m j ≤ grandTotal m := by
  induction m with
  | nil => simp [colSum, grandTotal]
  | cons row rest ih =>
    have h1 : row.getD j 0 ≤ row.sum := getD_le_sum row j
    have h2 := ih
    simp only [colSum, grandTotal, List.map_cons, List.sum_cons] at *
    omega

/-- Key combinatorial inequality: for any member row,
`colSum j + row.sum ≤ entry + grandTotal`. -/
lemma colSum_add_rowSum_le {m : CTable} {row : List ℕ} (h : row ∈ m)
    (j : ℕ) : colSum m j + row.sum ≤ row.getD j 0 + grandTotal m := by
  induction m with
  | nil => cases h
  | cons r rest ih =>
    rcases List.mem_cons.mp h with rfl | hmem
    · have := colSum_le_grandTotal rest j
      simp only [colSum, grandTotal, List.map_cons, List.sum_cons] at *
      omega
    · have := ih hmem
      have h1 : r.getD j 0 ≤ r.sum := getD_le_sum r j
      simp only [colSum, grandTotal, List.map_cons, List.sum_cons] at *
      omega

/-- In `ℚ`, `chiTerm` coincides with the claim's "a cell with expected
frequency 0 contributes exactly 0". -/
lemma chiTerm_eq_ite (o e : ℚ) :
    chiTerm o e = if e = 0 then 0 else (o - e) ^ 2 / e := by
  unfold chiTerm
  split
  · simp [*]
  · rfl

/-- If the grand total is `0` then every entry of the table is `0`. -/
lemma rowSum_eq_zero_of_grandTotal_zero {m : CTable} (h : grandTotal m = 0)
    {row : List ℕ} (hrow : row ∈ m) : row.sum = 0 :=
  Nat.le_zero.mp (h ▸ rowSum_le_grandTotal hrow)

/-- With a single observation in the whole table, every cell of the
chi-squared sum vanishes: the nonzero cell observes exactly its expected
frequency and all other cells have observed and expected both `0`. -/
lemma ss_chi2_of_grandTotal_one {m : CTable} (h : grandTotal m = 1) :
    ss_chi2 m = 0 := by
  unfold ss_chi2
  split
  · rfl
  · apply List.sum_eq_zero
    intro x hx
    obtain ⟨row, hrow, rfl⟩ := List.mem_map.mp hx
    apply List.sum_eq_zero
    intro y hy
    obtain ⟨j, _, rfl⟩ := List.mem_map.mp hy
    have hrs : row.sum ≤ 1 := h ▸ rowSum_le_grandTotal hrow
    have ho : row.getD j 0 ≤ row.sum := getD_le_sum row j
    rcases Nat.le_one_iff_eq_zero_or_eq_one.mp hrs with h0 | h1
    · have hoz : row.getD j 0 = 0 := by omega
      simp [chiTerm, h0, hoz]
    · have hco : colSum m j = row.getD j 0 := by
        have h2 := colSum_add_rowSum_le hrow j
        have h3 := getD_le_colSum hrow j
        omega
      rw [h, hco, h1]
      simp [chiTerm]

/-- The chi-squared statistic of the code equals the claim's formula, on
every table of counts. -/
lemma ss_chi2_eq_chi2_claim (m : CTable) : ss_chi2 m = chi2_claim m := by
  by_cases h0 : grandTotal m = 0
  · unfold chi2_claim
    rw [if_pos h0]
    unfold ss_chi2
    split
    · rfl
    · apply List.sum_eq_zero
      intro x hx
      obtain ⟨row, hrow, rfl⟩ := List.mem_map.mp hx
      apply List.sum_eq_zero
      intro y hy
      obtain ⟨j, _, rfl⟩ := List.mem_map.mp hy
      have hrs : row.sum = 0 := rowSum_eq_zero_of_grandTotal_zero h0 hrow
      have hoz : row.getD j 0 = 0 := by
        have := getD_le_sum row j; omega
      simp [chiTerm, hrs, hoz]
  · unfold ss_chi2 chi2_claim
    rw [if_neg h0]
    split
    · rename_i hsz
      rcases hsz with hr | hc
      · exfalso
        apply h0
        unfold grandTotal
        rw [List.length_eq_zero.mp hr]
        rfl
      · symm
        apply List.sum_eq_zero
        intro x hx
        obtain ⟨row, _, rfl⟩ := List.mem_map.mp hx
        rw [hc]
        rfl
    · congr 1
      apply List.map_congr_left
      intro row _
      congr 1
      apply List.map_congr_left
      intro j _
      exact chiTerm_eq_ite _ _

/-- The squared Cramér's V of the code equals the claim's formula.  The two
differ syntactically only at `n = 1`, where the code zeroes the whole
corrected quantities while the claim zeroes just the correction terms; both
yield `0` because the chi-squared statistic of a one-observation table is
`0`. -/
lemma cramers_v_sq_eq_claim (m : CTable) :
    cramers_v_sq m = cramers_v_claim_sq m := by
  unfold cramers_v_sq cramers_v_claim_sq claim_denom claim_phi2corr
  by_cases h0 : grandTotal m = 0
  · simp [h0]
  · rcases Nat.lt_or_ge 1 (grandTotal m) with hgt | hle
    · have hne : ¬ grandTotal m ≤ 1 := by omega
      simp only [if_neg h0, if_pos hgt, if_neg hne]
    · have h1 : grandTotal m = 1 := by omega
      have hchi : ss_chi2 m = 0 := ss_chi2_of_grandTotal_one h1
      have hnlt : ¬ 1 < grandTotal m := by omega
      have hle1 : grandTotal m ≤ 1 := by omega
      simp only [if_neg h0, if_neg hnlt, if_pos hle1, hchi, h1]
      norm_num

/-! ### Bridging the list-level `ss_chi2` to the Finset-level `chi2F` -/

/-- A mapped list sum is a `Finset.range` sum over positional access. -/
lemma list_map_sum_eq_range_sum {α M : Type*} [AddCommMonoid M] (l : List α)
    (f : α → M) (d : α) :
    (l.map f).sum = ∑ i ∈ Finset.range l.length, f (l.getD i d) := by
  induction l with
  | nil => simp
  | cons a t ih =>
    rw [List.map_cons, List.sum_cons, List.length_cons,
      Finset.sum_range_succ', ih]
    simp [add_comm]

/-- A list sum in `ℕ` is a `Finset.range` sum over positional access. -/
lemma list_sum_eq_range_sum (l : List ℕ) :
    l.sum = ∑ i ∈ Finset.range l.length, l.getD i 0 := by
  have h := list_map_sum_eq_range_sum l id 0
  simpa using h

/-- Summing a map over `List.range` is a `Finset.range` sum. -/
lemma range_map_sum_eq_sum {M : Type*} [AddCommMonoid M] (k : ℕ)
    (g : ℕ → M) :
    ((List.range k).map g).sum = ∑ j ∈ Finset.range k, g j := by
  induction k with
  | zero => simp
  | succ n ih => rw [List.range_succ, Finset.sum_range_succ, List.map_append,
      List.sum_append, ih]; simp

/-- For a member row of a rectangular table, the row sum coincides with the
abstract row total. -/
lemma rowSum_eq_rTot {m : CTable} (hrect : Rectangular m) {i : ℕ}
    (hi : i < numRows m) :
    ((m.getD i []).sum : ℚ) = rTot (numCols m) (fun i j => (entry m i j : ℚ)) i := by
  have hmem : m.getD i [] ∈ m := by
    rw [List.getD_eq_getElem m [] hi]
    exact List.getElem_mem hi
  have hlen : (m.getD i []).length = numCols m := hrect _ hmem
  rw [rTot]
  rw [list_sum_eq_range_sum (m.getD i []), hlen]
  push_cast
  rfl

/-- The column sum coincides with the abstract column total. -/
lemma colSum_eq_cTot (m : CTable) (j : ℕ) :
    ((colSum m j : ℕ) : ℚ) = cTot (numRows m) (fun i j => (entry m i j : ℚ)) j := by
  rw [colSum, cTot, list_map_sum_eq_range_sum m (fun row => row.getD j 0) []]
  push_cast
  rfl

/-- The grand total coincides with the abstract grand total. -/
lemma grandTotal_eq_nTot {m : CTable} (hrect : Rectangular m) :
    ((grandTotal m : ℕ) : ℚ) =
      nTot (numRows m) (numCols m) (fun i j => (entry m i j : ℚ)) := by
  have h1 : grandTotal m = ∑ i ∈ Finset.range (numRows m), (m.getD i []).sum :=
    list_map_sum_eq_range_sum m List.sum []
  rw [h1, Nat.cast_sum, nTot]
  exact Finset.sum_congr rfl fun i hi =>
    rowSum_eq_rTot hrect (Finset.mem_range.mp hi)

/-- On a rectangular table with at least one row and one column, `ss_chi2`
is the abstract `chi2F` of its entries. -/
lemma ss_chi2_eq_chi2F {m : CTable} (hrect : Rectangular m)
    (hr : numRows m ≠ 0) (hc : numCols m ≠ 0) :
    ss_chi2 m = chi2F (numRows m) (numCols m) (fun i j => (entry m i j : ℚ)) := by
  unfold ss_chi2 chi2F
  rw [if_neg (by push_neg; exact ⟨hr, hc⟩)]
  rw [list_map_sum_eq_range_sum m _ []]
  apply Finset.sum_congr rfl
  intro i hi
  rw [range_map_sum_eq_sum]
  apply Finset.sum_congr rfl
  intro j _
  rw [← rowSum_eq_rTot hrect (Finset.mem_range.mp hi), ← colSum_eq_cTot,
    ← grandTotal_eq_nTot hrect]
  rfl

/-! ### Bounds on the abstract chi-squared statistic -/

lemma rTot_nonneg (k : ℕ) (O : ℕ → ℕ → ℚ) (hO : ∀ i j, 0 ≤ O i j) (i : ℕ) :
    0 ≤ rTot k O i :=
  Finset.sum_nonneg fun j _ => hO i j

lemma cTot_nonneg (r : ℕ) (O : ℕ → ℕ → ℚ) (hO : ∀ i j, 0 ≤ O i j) (j : ℕ) :
    0 ≤ cTot r O j :=
  Finset.sum_nonneg fun i _ => hO i j

lemma nTot_nonneg (r k : ℕ) (O : ℕ → ℕ → ℚ) (hO : ∀ i j, 0 ≤ O i j) :
    0 ≤ nTot r k O :=
  Finset.sum_nonneg fun i _ => rTot_nonneg k O hO i

lemma O_le_rTot {k : ℕ} (O : ℕ → ℕ → ℚ) (hO : ∀ i j, 0 ≤ O i j) {j : ℕ}
    (hj : j < k) (i : ℕ) : O i j ≤ rTot k O i :=
  Finset.single_le_sum (fun j _ => hO i j) (Finset.mem_range.mpr hj)

lemma O_le_cTot {r : ℕ} (O : ℕ → ℕ → ℚ) (hO : ∀ i j, 0 ≤ O i j) {i : ℕ}
    (hi : i < r) (j : ℕ) : O i j ≤ cTot r O j :=
  Finset.single_le_sum (fun i _ => hO i j) (Finset.mem_range.mpr hi)

lemma sum_cTot_eq_nTot (r k : ℕ) (O : ℕ → ℕ → ℚ) :
    ∑ j ∈ Finset.range k, cTot r O j = nTot r k O := by
  unfold nTot rTot cTot
  exact Finset.sum_comm

lemma O_eq_zero_of_margin_zero {r k : ℕ} {O : ℕ → ℕ → ℚ}
    (hO : ∀ i j, 0 ≤ O i j) {i j : ℕ} (hi : i < r) (hj : j < k)
    (h : rTot k O i * cTot r O j = 0) : O i j = 0 := by
  rcases mul_eq_zero.mp h with h | h
  · exact le_antisymm (h ▸ O_le_rTot O hO hj i) (hO i j)
  · exact le_antisymm (h ▸ O_le_cTot O hO hi j) (hO i j)

/-- Expansion `(o-e)²/e = o²/e - 2o + e`, valid with Lean's junk division as
long as a zero expected frequency forces a zero observation. -/
lemma chiTerm_expand {o e : ℚ} (h : e = 0 → o = 0) :
    chiTerm o e = o ^ 2 / e - 2 * o + e := by
  by_cases he : e = 0
  · simp [chiTerm, he, h he]
  · field_simp [chiTerm]
    ring

lemma chi2F_nonneg (r k : ℕ) (O : ℕ → ℕ → ℚ) (hO : ∀ i j, 0 ≤ O i j) :
    0 ≤ chi2F r k O := by
  apply Finset.sum_nonneg
  intro i _
  apply Finset.sum_nonneg
  intro j _
  exact chiTerm_nonneg (div_nonneg
    (mul_nonneg (rTot_nonneg k O hO i) (cTot_nonneg r O hO j))
    (nTot_nonneg r k O hO))

/-- The sum of all expected frequencies is the grand total. -/
lemma sum_expected_eq_nTot (r k : ℕ) (O : ℕ → ℕ → ℚ)
    (hN : nTot r k O ≠ 0) :
    ∑ i ∈ Finset.range r, ∑ j ∈ Finset.range k,
      rTot k O i * cTot r O j / nTot r k O = nTot r k O := by
  have hinner : ∀ i, ∑ j ∈ Finset.range k,
      rTot k O i * cTot r O j / nTot r k O = rTot k O i := by
    intro i
    rw [← Finset.sum_div, ← Finset.mul_sum, sum_cTot_eq_nTot,
      mul_div_assoc, div_self hN, mul_one]
  rw [Finset.sum_congr rfl fun i _ => hinner i]
  rfl

/-- Chi-squared is at most `N * (r - 1)`:  `χ² = Σ o²/e − N` and
`Σ o²/e = N · Σ o²/(R·C) ≤ N · Σᵢ Rᵢ/Rᵢ ≤ N·r`. -/
lemma chi2F_le_rows (r k : ℕ) (O : ℕ → ℕ → ℚ) (hO : ∀ i j, 0 ≤ O i j)
    (hN : nTot r k O ≠ 0) :
    chi2F r k O ≤ nTot r k O * (r : ℚ) - nTot r k O := by
  have hNnn : 0 ≤ nTot r k O := nTot_nonneg r k O hO
  have hexp : chi2F r k O =
      (∑ i ∈ Finset.range r, ∑ j ∈ Finset.range k,
        (O i j ^ 2 / (rTot k O i * cTot r O j / nTot r k O)
          - 2 * O i j + rTot k O i * cTot r O j / nTot r k O)) := by
    apply Finset.sum_congr rfl
    intro i hi
    apply Finset.sum_congr rfl
    intro j hj
    apply chiTerm_expand
    intro he
    apply O_eq_zero_of_margin_zero hO (Finset.mem_range.mp hi)
      (Finset.mem_range.mp hj)
    rcases div_eq_zero_iff.mp he with h | h
    · exact h
    · exact absurd h hN
  have hOsum : ∑ i ∈ Finset.range r, ∑ j ∈ Finset.range k, O i j
      = nTot r k O := rfl
  have hsplit : chi2F r k O =
      (∑ i ∈ Finset.range r, ∑ j ∈ Finset.range k,
        O i j ^ 2 / (rTot k O i * cTot r O j / nTot r k O))
      - 2 * nTot r k O + nTot r k O := by
    rw [hexp]
    simp only [Finset.sum_sub_distrib, Finset.sum_add_distrib,
      ← Finset.mul_sum]
    rw [hOsum, sum_expected_eq_nTot r k O hN]
  have hpoint : ∀ i ∈ Finset.range r, ∀ j ∈ Finset.range k,
      O i j ^ 2 / (rTot k O i * cTot r O j / nTot r k O)
        = nTot r k O * (O i j ^ 2 / (rTot k O i * cTot r O j)) := by
    intro i _ j _
    rw [div_div_eq_mul_div, mul_comm (O i j ^ 2) (nTot r k O),
      mul_div_assoc]
  have hinner_le : ∀ i ∈ Finset.range r,
      (∑ j ∈ Finset.range k, O i j ^ 2 / (rTot k O i * cTot r O j)) ≤ 1 := by
    intro i hi
    have hstep : ∀ j ∈ Finset.range k,
        O i j ^ 2 / (rTot k O i * cTot r O j) ≤ O i j / rTot k O i := by
      intro j hj
      by_cases hR : rTot k O i = 0
      · have hOz : O i j = 0 := le_antisymm
          (hR ▸ O_le_rTot O hO (Finset.mem_range.mp hj) i) (hO i j)
        simp [hOz]
      · by_cases hC : cTot r O j = 0
        · have hOz : O i j = 0 := le_antisymm
            (hC ▸ O_le_cTot O hO (Finset.mem_range.mp hi) j) (hO i j)
          simp [hOz]
        · have hRpos : 0 < rTot k O i :=
            lt_of_le_of_ne (rTot_nonneg k O hO i) (Ne.symm hR)
          have hCpos : 0 < cTot r O j :=
            lt_of_le_of_ne (cTot_nonneg r O hO j) (Ne.symm hC)
          have hfact : O i j ^ 2 / (rTot k O i * cTot r O j)
              = (O i j / rTot k O i) * (O i j / cTot r O j) := by
            rw [div_mul_div_comm, sq]
          rw [hfact]
          have h1 : O i j / cTot r O j ≤ 1 :=
            (div_le_one hCpos).mpr (O_le_cTot O hO (Finset.mem_range.mp hi) j)
          have h2 : 0 ≤ O i j / rTot k O i :=
            div_nonneg (hO i j) (le_of_lt hRpos)
          calc (O i j / rTot k O i) * (O i j / cTot r O j)
              ≤ (O i j / rTot k O i) * 1 := mul_le_mul_of_nonneg_left h1 h2
            _ = O i j / rTot k O i := mul_one _
    calc (∑ j ∈ Finset.range k, O i j ^ 2 / (rTot k O i * cTot r O j))
        ≤ ∑ j ∈ Finset.range k, O i j / rTot k O i :=
          Finset.sum_le_sum hstep
      _ = rTot k O i / rTot k O i := by rw [← Finset.sum_div]; rfl
      _ ≤ 1 := by
          by_cases hR : rTot k O i = 0
          · simp [hR]
          · rw [div_self hR]
  have hS1 : (∑ i ∈ Finset.range r, ∑ j ∈ Finset.range k,
      O i j ^ 2 / (rTot k O i * cTot r O j / nTot r k O))
        ≤ nTot r k O * (r : ℚ) := by
    rw [Finset.sum_congr rfl fun i hi =>
      Finset.sum_congr rfl fun j hj => hpoint i hi j hj]
    simp only [← Finset.mul_sum]
    apply mul_le_mul_of_nonneg_left _ hNnn
    calc (∑ i ∈ Finset.range r, ∑ j ∈ Finset.range k,
        O i j ^ 2 / (rTot k O i * cTot r O j))
        ≤ ∑ i ∈ Finset.range r, (1 : ℚ) := Finset.sum_le_sum hinner_le
      _ = (r : ℚ) := by simp
  rw [hsplit]
  linarith

/-- `chi2F` is symmetric under transposition of the table. -/
lemma chi2F_transpose (r k : ℕ) (O : ℕ → ℕ → ℚ) :
    chi2F k r (fun j i => O i j) = chi2F r k O := by
  have hr : ∀ j, rTot r (fun j i => O i j) j = cTot r O j := fun _ => rfl
  have hc : ∀ i, cTot k (fun j i => O i j) i = rTot k O i := fun _ => rfl
  have hn : nTot k r (fun j i => O i j) = nTot r k O := by
    unfold nTot rTot
    exact Finset.sum_comm
  unfold chi2F
  rw [Finset.sum_comm]
  apply Finset.sum_congr rfl
  intro i _
  apply Finset.sum_congr rfl
  intro j _
  rw [hr, hc, hn, mul_comm (cTot r O j) (rTot k O i)]

/-- Chi-squared is also at most `N * (k - 1)`, by transposition. -/
lemma chi2F_le_cols (r k : ℕ) (O : ℕ → ℕ → ℚ) (hO : ∀ i j, 0 ≤ O i j)
    (hN : nTot r k O ≠ 0) :
    chi2F r k O ≤ nTot r k O * (k : ℚ) - nTot r k O := by
  have h := chi2F_le_rows k r (fun j i => O i j) (fun j i => hO i j)
    (by rw [show nTot k r (fun j i => O i j) = nTot r k O by
          unfold nTot rTot; exact Finset.sum_comm]; exact hN)
  rw [chi2F_transpose r k O] at h
  rw [show nTot k r (fun j i => O i j) = nTot r k O by
      unfold nTot rTot; exact Finset.sum_comm] at h
  exact h

/-! ### Bounds on `cramers_v_sq` -/

lemma numRows_ne_zero_of_grandTotal {m : CTable} (h : grandTotal m ≠ 0) :
    numRows m ≠ 0 := by
  intro hr
  apply h
  rw [List.length_eq_zero.mp hr]
  rfl

lemma numCols_ne_zero_of_grandTotal {m : CTable} (hrect : Rectangular m)
    (h : grandTotal m ≠ 0) : numCols m ≠ 0 := by
  intro hc
  apply h
  apply List.sum_eq_zero
  intro x hx
  obtain ⟨row, hrow, rfl⟩ := List.mem_map.mp hx
  have hlen := hrect row hrow
  rw [hc] at hlen
  rw [List.length_eq_zero.mp hlen]
  rfl

lemma ss_chi2_le_rows {m : CTable} (hrect : Rectangular m)
    (h0 : grandTotal m ≠ 0) :
    ss_chi2 m ≤ (grandTotal m : ℚ) * (numRows m : ℚ) - (grandTotal m : ℚ) := by
  have hr := numRows_ne_zero_of_grandTotal h0
  have hc := numCols_ne_zero_of_grandTotal hrect h0
  rw [ss_chi2_eq_chi2F hrect hr hc]
  have hN : nTot (numRows m) (numCols m) (fun i j => (entry m i j : ℚ)) ≠ 0 := by
    rw [← grandTotal_eq_nTot hrect]
    exact_mod_cast h0
  have h := chi2F_le_rows (numRows m) (numCols m)
    (fun i j => (entry m i j : ℚ)) (fun i j => Nat.cast_nonneg _) hN
  rw [← grandTotal_eq_nTot hrect] at h
  exact h

lemma ss_chi2_le_cols {m : CTable} (hrect : Rectangular m)
    (h0 : grandTotal m ≠ 0) :
    ss_chi2 m ≤ (grandTotal m : ℚ) * (numCols m : ℚ) - (grandTotal m : ℚ) := by
  have hr := numRows_ne_zero_of_grandTotal h0
  have hc := numCols_ne_zero_of_grandTotal hrect h0
  rw [ss_chi2_eq_chi2F hrect hr hc]
  have hN : nTot (numRows m) (numCols m) (fun i j => (entry m i j : ℚ)) ≠ 0 := by
    rw [← grandTotal_eq_nTot hrect]
    exact_mod_cast h0
  have h := chi2F_le_cols (numRows m) (numCols m)
    (fun i j => (entry m i j : ℚ)) (fun i j => Nat.cast_nonneg _) hN
  rw [← grandTotal_eq_nTot hrect] at h
  exact h

lemma cramers_v_sq_nonneg (m : CTable) : 0 ≤ cramers_v_sq m := by
  simp only [cramers_v_sq]
  split_ifs
  all_goals first
    | exact le_refl 0
    | exact div_nonneg (le_max_left 0 _) (le_of_lt (lt_of_not_le (by assumption)))
    | exact div_nonneg (le_refl 0) (le_of_lt (lt_of_not_le (by assumption)))

/-- One component of the bias-corrected denominator dominates the corrected
`φ²`.  Pure `ℚ` algebra. -/
lemma vsq_comp_aux {a b u p : ℚ} (ha : 0 < a) (hb : 0 ≤ b) (hu : 0 < u)
    (hau : a < u) (hpa : p ≤ a) (hpb : p ≤ b) :
    p - a * b / u ≤ a - a ^ 2 / u := by
  have e1 : p - a * b / u = (p * u - a * b) / u := by field_simp
  have e2 : a - a ^ 2 / u = (a * u - a ^ 2) / u := by field_simp
  rw [e1, e2, div_le_div_iff_of_pos_right hu]
  rcases le_total a b with hab | hab
  · nlinarith [mul_le_mul_of_nonneg_right hpa hu.le,
      mul_nonneg ha.le (sub_nonneg.2 hab)]
  · nlinarith [mul_le_mul_of_nonneg_right hpb hu.le,
      mul_nonneg (sub_nonneg.2 hab) (sub_nonneg.2 hau.le)]

/-- The corrected `φ²` never exceeds the corrected denominator. -/
lemma vsq_bound_aux {a b u p : ℚ} (ha : 0 ≤ a) (hb : 0 ≤ b) (hu : 0 < u)
    (hpa : p ≤ a) (hpb : p ≤ b)
    (h1 : 0 < a - a ^ 2 / u) (h2 : 0 < b - b ^ 2 / u) :
    max 0 (p - a * b / u) ≤ min (a - a ^ 2 / u) (b - b ^ 2 / u) := by
  have ha' : 0 < a := by
    by_contra hc
    push_neg at hc
    have hae : a = 0 := le_antisymm hc ha
    rw [hae] at h1
    norm_num at h1
  have hb' : 0 < b := by
    by_contra hc
    push_neg at hc
    have hbe : b = 0 := le_antisymm hc hb
    rw [hbe] at h2
    norm_num at h2
  have hau : a < u := by
    have h3 : a ^ 2 / u < a := by linarith
    have h4 : a ^ 2 < a * u := (div_lt_iff hu).mp h3
    nlinarith
  have hbu : b < u := by
    have h3 : b ^ 2 / u < b := by linarith
    have h4 : b ^ 2 < b * u := (div_lt_iff hu).mp h3
    nlinarith
  apply max_le
  · exact le_min h1.le h2.le
  · apply le_min
    · exact vsq_comp_aux ha' hb hu hau hpa hpb
    · have h := vsq_comp_aux hb' ha hu hbu hpb hpa
      rw [mul_comm b a] at h
      exact h

/-- The square of the (bias-corrected) Cramér's V is at most 1. -/
lemma cramers_v_sq_le_one {m : CTable} (hrect : Rectangular m) :
    cramers_v_sq m ≤ 1 := by
  simp only [cramers_v_sq]
  split_ifs with h0 h1 hd hd
  · norm_num
  · norm_num
  · -- main case: n ≥ 2, positive denominator
    have hn2 : 2 ≤ grandTotal m := h1
    have hnpos : (0 : ℚ) < (grandTotal m : ℚ) := by
      have : 0 < grandTotal m := by omega
      exact_mod_cast this
    have hu : (0 : ℚ) < (grandTotal m : ℚ) - 1 := by
      have : (2 : ℚ) ≤ (grandTotal m : ℚ) := by exact_mod_cast hn2
      linarith
    have hr0 : numRows m ≠ 0 := numRows_ne_zero_of_grandTotal h0
    have hc0 : numCols m ≠ 0 := numCols_ne_zero_of_grandTotal hrect h0
    have hk1 : (1 : ℚ) ≤ (numCols m : ℚ) := by
      exact_mod_cast Nat.one_le_iff_ne_zero.mpr hc0
    have hr1 : (1 : ℚ) ≤ (numRows m : ℚ) := by
      exact_mod_cast Nat.one_le_iff_ne_zero.mpr hr0
    have hpa : ss_chi2 m / (grandTotal m : ℚ) ≤ (numCols m : ℚ) - 1 := by
      rw [div_le_iff hnpos]
      have := ss_chi2_le_cols hrect h0
      nlinarith
    have hpb : ss_chi2 m / (grandTotal m : ℚ) ≤ (numRows m : ℚ) - 1 := by
      rw [div_le_iff hnpos]
      have := ss_chi2_le_rows hrect h0
      nlinarith
    push_neg at hd
    have e1 : (numCols m : ℚ) - ((numCols m : ℚ) - 1) ^ 2 / ((grandTotal m : ℚ) - 1) - 1
        = ((numCols m : ℚ) - 1) - ((numCols m : ℚ) - 1) ^ 2 / ((grandTotal m : ℚ) - 1) := by
      ring
    have e2 : (numRows m : ℚ) - ((numRows m : ℚ) - 1) ^ 2 / ((grandTotal m : ℚ) - 1) - 1
        = ((numRows m : ℚ) - 1) - ((numRows m : ℚ) - 1) ^ 2 / ((grandTotal m : ℚ) - 1) := by
      ring
    rw [e1, e2] at hd ⊢
    have hmin : 0 < min
        (((numCols m : ℚ) - 1) - ((numCols m : ℚ) - 1) ^ 2 / ((grandTotal m : ℚ) - 1))
        (((numRows m : ℚ) - 1) - ((numRows m : ℚ) - 1) ^ 2 / ((grandTotal m : ℚ) - 1)) := hd
    rw [div_le_one hmin]
    have hcomp1 : 0 < ((numCols m : ℚ) - 1) - ((numCols m : ℚ) - 1) ^ 2 / ((grandTotal m : ℚ) - 1) :=
      lt_of_lt_of_le hmin (min_le_left _ _)
    have hcomp2 : 0 < ((numRows m : ℚ) - 1) - ((numRows m : ℚ) - 1) ^ 2 / ((grandTotal m : ℚ) - 1) :=
      lt_of_lt_of_le hmin (min_le_right _ _)
    exact vsq_bound_aux (by linarith) (by linarith) hu hpa hpb hcomp1 hcomp2
  · norm_num
  · -- n = 1 and the degenerate denominator claimed positive: impossible
    exfalso
    apply hd
    norm_num

lemma cramers_v_claim_eq_sqrt (m : CTable) :
    cramers_v_claim m = Real.sqrt ((cramers_v_claim_sq m : ℚ) : ℝ) := by
  unfold cramers_v_claim cramers_v_claim_sq
  split_ifs <;> simp

/-- If every observed frequency equals its expected frequency, the
chi-squared statistic vanishes. -/
lemma ss_chi2_of_indep {m : CTable}
    (h : ∀ row ∈ m, ∀ j < numCols m,
      (row.getD j 0 : ℚ)
        = (row.sum : ℚ) * (colSum m j : ℚ) / (grandTotal m : ℚ)) :
    ss_chi2 m = 0 := by
  unfold ss_chi2
  split
  · rfl
  · apply List.sum_eq_zero
    intro x hx
    obtain ⟨row, hrow, rfl⟩ := List.mem_map.mp hx
    apply List.sum_eq_zero
    intro y hy
    obtain ⟨j, hj, rfl⟩ := List.mem_map.mp hy
    rw [← h row hrow j (List.mem_range.mp hj)]
    simp [chiTerm]

lemma cramers_v_sq_of_chi2_zero {m : CTable} (hrect : Rectangular m)
    (hchi : ss_chi2 m = 0) : cramers_v_sq m = 0 := by
  by_cases h0 : grandTotal m = 0
  · simp [cramers_v_sq, h0]
  · by_cases h1 : 1 < grandTotal m
    · simp only [cramers_v_sq, hchi, if_neg h0, if_pos h1, zero_div]
      have hr0 : numRows m ≠ 0 := numRows_ne_zero_of_grandTotal h0
      have hc0 : numCols m ≠ 0 := numCols_ne_zero_of_grandTotal hrect h0
      have hr1 : (1 : ℚ) ≤ (numRows m : ℚ) := by
        exact_mod_cast Nat.one_le_iff_ne_zero.mpr hr0
      have hk1 : (1 : ℚ) ≤ (numCols m : ℚ) := by
        exact_mod_cast Nat.one_le_iff_ne_zero.mpr hc0
      have hu : (0 : ℚ) < (grandTotal m : ℚ) - 1 := by
        have h2 : (2 : ℚ) ≤ (grandTotal m : ℚ) := by exact_mod_cast h1
        linarith
      have hc : (0 : ℚ) ≤ ((numCols m : ℚ) - 1) * ((numRows m : ℚ) - 1)
          / ((grandTotal m : ℚ) - 1) :=
        div_nonneg (mul_nonneg (by linarith) (by linarith)) hu.le
      rw [max_eq_left (by linarith)]
      simp
    · simp only [cramers_v_sq, if_neg h0, if_neg h1]
      simp

/-- C1: on every contingency table of counts, `cramers_v` computes exactly
the claim's formula: χ² via the chi-squared statistic, `n` the grand
total, `φ² = χ²/n`, bias-corrected `φ²_corr`, `r_corr`, `k_corr` with all
three correction terms `0` when `n ≤ 1`, `denom = min (k_corr−1) (r_corr−1)`,
result `0` whenever `n = 0` or `denom ≤ 0` and `sqrt (φ²_corr/denom)`
otherwise. -/
theorem C1_cramers_v_matches_claim_formula (m : CTable) :
    cramers_v m = cramers_v_claim m := by
  unfold cramers_v
  rw [cramers_v_sq_eq_claim m]
  exact (cramers_v_claim_eq_sqrt m).symm

/-- C2: on every contingency table of counts, the chi-squared statistic
equals the sum over all cells of `(observed − expected)²/expected` with
`expected = rowTotal·colTotal/grandTotal`, cells with expected frequency
`0` contributing exactly `0`, and the statistic is exactly `0` when the
grand total is `0` (including the empty matrix). -/
theorem C2_ss_chi2_matches_claim_formula (m : CTable) :
    ss_chi2 m = chi2_claim m ∧ (grandTotal m = 0 → ss_chi2 m = 0) := by
  refine ⟨ss_chi2_eq_chi2_claim m, fun h0 => ?_⟩
  rw [ss_chi2_eq_chi2_claim m]
  unfold chi2_claim
  rw [if_pos h0]

theorem C2_ss_chi2_matches_claim_formula_witness :
    grandTotal ([[0, 0], [0, 0]] : CTable) = 0
      ∧ ss_chi2 ([[0, 0], [0, 0]] : CTable) = 0 :=
  ⟨by decide, (C2_ss_chi2_matches_claim_formula [[0, 0], [0, 0]]).2 (by decide)⟩

/-- C4: for every (rectangular) contingency table with at least one
observation, Cramér's V lies in `[0, 1]`; and when every observed joint
frequency equals its expected frequency (statistical independence in the
data), the value is `0`. -/
theorem C4_cramers_v_bounds_and_independence (m : CTable)
    (hrect : Rectangular m) (hn : 1 ≤ grandTotal m) :
    (0 ≤ cramers_v m ∧ cramers_v m ≤ 1)
    ∧ ((∀ row ∈ m, ∀ j < numCols m,
          (row.getD j 0 : ℚ)
            = (row.sum : ℚ) * (colSum m j : ℚ) / (grandTotal m : ℚ)) →
        cramers_v m = 0) := by
  refine ⟨⟨Real.sqrt_nonneg _, ?_⟩, fun hindep => ?_⟩
  · rw [cramers_v, Real.sqrt_le_one]
    exact_mod_cast cramers_v_sq_le_one hrect
  · rw [cramers_v, cramers_v_sq_of_chi2_zero hrect (ss_chi2_of_indep hindep)]
    simp

theorem C4_cramers_v_bounds_and_independence_witness :
    Rectangular ([[2, 2], [2, 2]] : CTable)
      ∧ 1 ≤ grandTotal ([[2, 2], [2, 2]] : CTable)
      ∧ cramers_v ([[2, 2], [2, 2]] : CTable) = 0 :=
  ⟨by decide, by decide,
    (C4_cramers_v_bounds_and_independence [[2, 2], [2, 2]] (by decide)
      (by decide)).2 (by
        intro row hrow j hj
        have hj2 : j < 2 := hj
        simp only [List.mem_cons, List.not_mem_nil, or_false] at hrow
        rcases hrow with rfl | rfl <;> interval_cases j <;>
          norm_num [colSum, grandTotal])⟩

/-! ### Claims C5 and C10: the column classifier -/

/-- C5 counterexample: a boolean-dtype column is classified numeric
(pandas `is_numeric_dtype` is true for bool dtypes) although its declared
type is neither integer nor floating-point, and the same column is also
classified categorical — refuting both "numeric exactly when int/float"
and "no column classified numeric is ever also classified categorical". -/
theorem C5_classifier_counterexample :
    is_numeric ⟨"flag", Dtype.boolDT, [some (Sum.inl 0), some (Sum.inl 1)]⟩
        = true
    ∧ Dtype.boolDT ≠ Dtype.intDT
    ∧ Dtype.boolDT ≠ Dtype.floatDT
    ∧ is_categorical 50
        ⟨"flag", Dtype.boolDT, [some (Sum.inl 0), some (Sum.inl 1)]⟩ = true := by
  refine ⟨rfl, by decide, by decide, rfl⟩

/-- C5 (amended): a column is numeric exactly when its declared dtype is
integer, floating-point or boolean; categorical exactly when it is
boolean, object, or has at most the threshold distinct non-missing values
while not being numeric; and a column is both numeric and categorical
exactly when it is boolean (so for non-boolean columns the two classes are
exclusive). -/
theorem C5_classifier_amended (c : Column) (th : ℕ) :
    (is_numeric c = true ↔
      (c.dtype = Dtype.intDT ∨ c.dtype = Dtype.floatDT ∨ c.dtype = Dtype.boolDT))
    ∧ (is_categorical th c = true ↔
      (c.dtype = Dtype.boolDT ∨ c.dtype = Dtype.objDT
        ∨ (nunique c ≤ th ∧ is_numeric c = false)))
    ∧ ((is_numeric c = true ∧ is_categorical th c = true) ↔
      c.dtype = Dtype.boolDT) := by
  rcases c with ⟨nm, d, vs⟩
  cases d <;>
    simp [is_numeric, is_numeric_dtype, is_categorical, is_bool_dtype,
      is_object_dtype, nunique]

/-- C10 counterexample: in a table whose only column is boolean, the
column is in both column lists, yet the categorical correlation matrix is
empty (fewer than 2 categorical columns), so the column does not
participate in it — refuting the unconditional "participates in both
matrices". -/
theorem C10_bool_both_counterexample :
    get_numeric_columns [⟨"flag2", Dtype.boolDT, [some (Sum.inl 0)]⟩]
        = ["flag2"]
    ∧ get_categorical_columns [⟨"flag2", Dtype.boolDT, [some (Sum.inl 0)]⟩]
        = ["flag2"]
    ∧ (categorical_correlation [⟨"flag2", Dtype.boolDT, [some (Sum.inl 0)]⟩]).1
        = []
    ∧ (categorical_correlation [⟨"flag2", Dtype.boolDT, [some (Sum.inl 0)]⟩]).2
        = [] := by
  refine ⟨rfl, rfl, ?_, ?_⟩ <;>
    · unfold categorical_correlation
      rw [if_pos (by decide)]

/-- C10 (amended): every boolean-dtype column is returned by both
`get_numeric_columns` and `get_categorical_columns`; it always labels a
row/column of the numeric correlation matrix, and it labels a row/column
of the categorical correlation matrix whenever the table has at least two
categorical columns. -/
theorem C10_bool_in_both_amended (t : Table) (c : Column) (hc : c ∈ t)
    (hb : c.dtype = Dtype.boolDT) :
    c.name ∈ get_numeric_columns t
    ∧ c.name ∈ get_categorical_columns t
    ∧ c.name ∈ (numeric_correlation t).1
    ∧ (2 ≤ (t.filter (fun x => is_categorical 50 x)).length →
        c.name ∈ (categorical_correlation t).1) := by
  have hnum : is_numeric c = true := by
    simp [is_numeric, hb, is_numeric_dtype]
  have hcat : is_categorical 50 c = true := by
    simp [is_categorical, hb, is_bool_dtype]
  have hmemN : c ∈ t.filter (fun x => is_numeric x) :=
    List.mem_filter.mpr ⟨hc, hnum⟩
  have hmemC : c ∈ t.filter (fun x => is_categorical 50 x) :=
    List.mem_filter.mpr ⟨hc, hcat⟩
  refine ⟨List.mem_map.mpr ⟨c, hmemN, rfl⟩, List.mem_map.mpr ⟨c, hmemC, rfl⟩,
    ?_, fun h2 => ?_⟩
  · unfold numeric_correlation
    rw [if_neg (by
      intro he
      rw [List.isEmpty_iff] at he
      rw [he] at hmemN
      cases hmemN)]
    exact List.mem_map.mpr ⟨c, hmemN, rfl⟩
  · unfold categorical_correlation
    rw [if_neg (by omega)]
    exact List.mem_map.mpr ⟨c, hmemC, rfl⟩

theorem C10_bool_in_both_amended_witness :
    "b1" ∈ get_numeric_columns
        [⟨"b1", Dtype.boolDT, [some (Sum.inl 1)]⟩,
         ⟨"b2", Dtype.boolDT, [some (Sum.inl 0)]⟩]
    ∧ "b1" ∈ get_categorical_columns
        [⟨"b1", Dtype.boolDT, [some (Sum.inl 1)]⟩,
         ⟨"b2", Dtype.boolDT, [some (Sum.inl 0)]⟩]
    ∧ "b1" ∈ (numeric_correlation
        [⟨"b1", Dtype.boolDT, [some (Sum.inl 1)]⟩,
         ⟨"b2", Dtype.boolDT, [some (Sum.inl 0)]⟩]).1
    ∧ "b1" ∈ (categorical_correlation
        [⟨"b1", Dtype.boolDT, [some (Sum.inl 1)]⟩,
         ⟨"b2", Dtype.boolDT, [some (Sum.inl 0)]⟩]).1 := by
  have h := C10_bool_in_both_amended
    [⟨"b1", Dtype.boolDT, [some (Sum.inl 1)]⟩,
     ⟨"b2", Dtype.boolDT, [some (Sum.inl 0)]⟩]
    ⟨"b1", Dtype.boolDT, [some (Sum.inl 1)]⟩
    (by decide) rfl
  exact ⟨h.1, h.2.1, h.2.2.1, h.2.2.2 (by decide)⟩

/-! ### Claims C6, C7, C8: cleaning diagnostics -/

/-- C6 counterexample: on a zero-cell table (a float column with no rows)
the source computes `df.isna().sum().sum() / df.size` as numpy `0/0`, so
the completeness and overall scores are NaN — refuting the claim's "on
every degenerate input, including the empty table with zero cells, all
three returned scores are well-defined (never NaN)".  (The uniqueness
guard does fire and yields 100.) -/
theorem C6_quality_score_counterexample :
    (data_quality_score [⟨"a", Dtype.floatDT, []⟩]).completeness_score = none
    ∧ (data_quality_score [⟨"a", Dtype.floatDT, []⟩]).overall_score = none
    ∧ (data_quality_score [⟨"a", Dtype.floatDT, []⟩]).uniqueness_score
        = some 100 := by
  refine ⟨?_, ?_, ?_⟩ <;>
    norm_num [data_quality_score, dsize, nrows, uniquenessQ, pyRound,
      roundHalfEven]

/-- C6 (amended): `data_quality_score` returns
completeness = (1 − missing/cells)·100, uniqueness = (rows − dups)/rows·100
(100 when the row count is 0), and overall their arithmetic mean, all
rounded to 2 decimals; the scores are well-defined on every table with at
least one cell, but on a zero-cell table the completeness and overall
scores are NaN (numpy 0/0) while uniqueness is still 100. -/
theorem C6_quality_score_amended (t : Table) :
    ((data_quality_score t).completeness_score
      = (if dsize t = 0 then none
         else some (pyRound ((1 - (missing_cells t : ℚ) / (dsize t : ℚ)) * 100) 2)))
    ∧ ((data_quality_score t).uniqueness_score = some (pyRound (uniquenessQ t) 2))
    ∧ ((data_quality_score t).overall_score
      = (if dsize t = 0 then none
         else some (pyRound (((1 - (missing_cells t : ℚ) / (dsize t : ℚ)) * 100
             + uniquenessQ t) / 2) 2))) := by
  unfold data_quality_score
  split_ifs <;> simp

/-- C8: `duplicate_rows_summary` reports `duplicate_percent = 0` on the
zero-row table instead of dividing 0/0; on every non-empty table it
reports the exact number of rows that duplicate an earlier row and that
count over the row count times 100, rounded to 2 decimals. -/
theorem C8_duplicate_rows_summary_formula (t : Table) :
    (nrows t = 0 → (duplicate_rows_summary t).duplicate_percent = 0)
    ∧ ((duplicate_rows_summary t).duplicate_rows
        = ((List.range (nrows t)).filter (fun i =>
            (List.range i).any (fun j => decide (rowAt t j = rowAt t i)))).length)
    ∧ (nrows t ≠ 0 → (duplicate_rows_summary t).duplicate_percent
        = pyRound ((dup_count t : ℚ) / (nrows t : ℚ) * 100) 2) := by
  unfold duplicate_rows_summary
  refine ⟨fun h0 => ?_, rfl, fun hne => ?_⟩
  · simp [h0]
  · simp [hne]

theorem C8_duplicate_rows_summary_formula_witness :
    (duplicate_rows_summary ([] : Table)).duplicate_percent = 0
    ∧ (duplicate_rows_summary
        [⟨"a", Dtype.intDT,
          [some (Sum.inl 1), some (Sum.inl 1), some (Sum.inl 2)]⟩]).duplicate_percent
      = pyRound
          ((dup_count [⟨"a", Dtype.intDT,
            [some (Sum.inl 1), some (Sum.inl 1), some (Sum.inl 2)]⟩] : ℚ)
          / ((nrows [⟨"a", Dtype.intDT,
            [some (Sum.inl 1), some (Sum.inl 1), some (Sum.inl 2)]⟩]) : ℚ) * 100) 2 :=
  ⟨(C8_duplicate_rows_summary_formula []).1 rfl,
    (C8_duplicate_rows_summary_formula
      [⟨"a", Dtype.intDT,
        [some (Sum.inl 1), some (Sum.inl 1), some (Sum.inl 2)]⟩]).2.2 (by decide)⟩

/-- A `filterMap` whose body is an ite-guarded `some` is a filter-then-map. -/
lemma filterMap_eq_filter_map {α β : Type*} (f : α → Option β) (p : α → Bool)
    (g : α → β) (h : ∀ a, f a = if p a then some (g a) else none)
    (l : List α) : l.filterMap f = (l.filter p).map g := by
  induction l with
  | nil => rfl
  | cons a t ih =>
    rw [List.filterMap_cons, List.filter_cons, h a]
    by_cases hp : p a = true
    · simp [hp, ih]
    · simp [hp, ih]

/-- C7: `outlier_detection` with the IQR method reports, for exactly the
`np.number` columns with at least one non-missing value (all-missing
columns are skipped), Q1, Q3, the 1.5·IQR fences and the count of values
strictly outside them; on `[1,2,3,4,5,100]` it flags `100` and no other
value, with (finite, rational) fences `-1.5` and `8.5`. -/
theorem C7_outlier_detection_iqr_formula (t : Table) :
    (outlier_detection_iqr t
      = (t.filter (fun c => is_np_number c.dtype && !(dropna c).isEmpty)).map
          (fun c => (c.name, iqr_outlier_claim c)))
    ∧ (outlier_detection_iqr
        [⟨"x", Dtype.floatDT,
          [some (Sum.inl 1), some (Sum.inl 2), some (Sum.inl 3),
           some (Sum.inl 4), some (Sum.inl 5), some (Sum.inl 100)]⟩]
      = [("x", ⟨1, 1667 / 100, -(3 / 2), 17 / 2⟩)])
    ∧ (([1, 2, 3, 4, 5, 100] : List ℚ).filter (fun x =>
          decide (x < quantile [1, 2, 3, 4, 5, 100] (1 / 4)
            - 3 / 2 * (quantile [1, 2, 3, 4, 5, 100] (3 / 4)
              - quantile [1, 2, 3, 4, 5, 100] (1 / 4)))
          || decide (quantile [1, 2, 3, 4, 5, 100] (3 / 4)
            + 3 / 2 * (quantile [1, 2, 3, 4, 5, 100] (3 / 4)
              - quantile [1, 2, 3, 4, 5, 100] (1 / 4)) < x)) = [100]) := by
  have hq1 : quantile [1, 2, 3, 4, 5, 100] (1 / 4) = 9 / 4 := by
    norm_num [quantile, List.insertionSort, List.orderedInsert]
  have hq3 : quantile [1, 2, 3, 4, 5, 100] (3 / 4) = 19 / 4 := by
    norm_num [quantile, List.insertionSort, List.orderedInsert]
    norm_num [show Int.toNat 3 = 3 from rfl]
  have hmain : ∀ (s : Table), outlier_detection_iqr s
      = (s.filter (fun c => is_np_number c.dtype && !(dropna c).isEmpty)).map
          (fun c => (c.name, iqr_outlier_claim c)) := by
    intro s
    unfold outlier_detection_iqr
    apply filterMap_eq_filter_map
    intro c
    by_cases hnp : is_np_number c.dtype = true
    · by_cases hs : (dropna c).isEmpty = true
      · have hlen : (dropna c).length = 0 := by
          rw [List.length_eq_zero, ← List.isEmpty_iff]
          exact hs
        simp [hnp, hs, hlen]
      · have hlen : ¬ (dropna c).length = 0 := by
          rw [List.length_eq_zero, ← List.isEmpty_iff]
          exact hs
        simp [hnp, hs, hlen, iqr_outlier_claim]
    · simp [hnp]
  refine ⟨hmain t, ?_, ?_⟩
  · rw [hmain]
    have hdrop : dropna ⟨"x", Dtype.floatDT,
        [some (Sum.inl 1), some (Sum.inl 2), some (Sum.inl 3),
         some (Sum.inl 4), some (Sum.inl 5), some (Sum.inl 100)]⟩
        = [1, 2, 3, 4, 5, 100] := by
      simp [dropna, obsOf]
    rw [List.filter_cons]
    norm_num [hdrop, is_np_number]
    unfold iqr_outlier_claim
    rw [hdrop]
    dsimp only
    rw [hq1, hq3]
    norm_num [List.filter, pyRound, roundHalfEven]
  · rw [hq1, hq3]
    norm_num [List.filter]

/-! ### Claim C9: load-time error handling -/

/-- C9: loading a non-existent path fails with the file-not-found error
and an unrecognised extension with the unsupported-format error; in both
cases the run exits with code 1 before any analysis step and before any
report is written; for an existing file with a recognised extension
neither load-time error is raised and the run proceeds. -/
theorem C9_load_error_handling (fs : FileSystem) (p : PyPath) :
    (fs.lookup p.name = none →
      load_data fs p = .error .file_not_found
      ∧ main_run fs p = ⟨1, false, false⟩)
    ∧ (∀ tbl, fs.lookup p.name = some tbl →
        pyLower p.suffix ∉ csv_suffixes →
        pyLower p.suffix ∉ excel_suffixes →
        pyLower p.suffix ∉ json_suffixes →
        pyLower p.suffix ≠ ".parquet" →
        load_data fs p = .error .unsupported_file_type
        ∧ main_run fs p = ⟨1, false, false⟩)
    ∧ (∀ tbl, fs.lookup p.name = some tbl →
        (pyLower p.suffix ∈ csv_suffixes ∨ pyLower p.suffix ∈ excel_suffixes
          ∨ pyLower p.suffix ∈ json_suffixes ∨ pyLower p.suffix = ".parquet") →
        (∀ e, load_data fs p ≠ .error e)
        ∧ main_run fs p = ⟨0, true, true⟩) := by
  refine ⟨fun hnone => ?_, fun tbl hsome h1 h2 h3 h4 => ?_, fun tbl hsome hok => ?_⟩
  · have hl : load_data fs p = .error .file_not_found := by
      unfold load_data
      rw [hnone]
    exact ⟨hl, by unfold main_run; rw [hl]⟩
  · have hl : load_data fs p = .error .unsupported_file_type := by
      unfold load_data
      rw [hsome]
      dsimp only
      rw [if_neg h1, if_neg h2, if_neg h3, if_neg h4]
    exact ⟨hl, by unfold main_run; rw [hl]⟩
  · have hload : ∃ ty, load_data fs p = .ok (tbl, ty) := by
      unfold load_data
      rw [hsome]
      dsimp only
      rcases hok with h | h | h | h
      · exact ⟨"csv", by rw [if_pos h]⟩
      · by_cases h1 : pyLower p.suffix ∈ csv_suffixes
        · exact ⟨"csv", by rw [if_pos h1]⟩
        · exact ⟨"excel", by rw [if_neg h1, if_pos h]⟩
      · by_cases h1 : pyLower p.suffix ∈ csv_suffixes
        · exact ⟨"csv", by rw [if_pos h1]⟩
        · by_cases h2 : pyLower p.suffix ∈ excel_suffixes
          · exact ⟨"excel", by rw [if_neg h1, if_pos h2]⟩
          · exact ⟨"json", by rw [if_neg h1, if_neg h2, if_pos h]⟩
      · by_cases h1 : pyLower p.suffix ∈ csv_suffixes
        · exact ⟨"csv", by rw [if_pos h1]⟩
        · by_cases h2 : pyLower p.suffix ∈ excel_suffixes
          · exact ⟨"excel", by rw [if_neg h1, if_pos h2]⟩
          · by_cases h3 : pyLower p.suffix ∈ json_suffixes
            · exact ⟨"json", by rw [if_neg h1, if_neg h2, if_pos h3]⟩
            · exact ⟨"parquet", by rw [if_neg h1, if_neg h2, if_neg h3, if_pos h]⟩
    obtain ⟨ty, hty⟩ := hload
    constructor
    · intro e he
      rw [hty] at he
      cases he
    · unfold main_run
      rw [hty]

theorem C9_load_error_handling_witness :
    load_data [("data.csv", ([] : Table))] ⟨"nope.csv", ".csv"⟩
        = .error .file_not_found
    ∧ load_data [("d.xyz", ([] : Table))] ⟨"d.xyz", ".xyz"⟩
        = .error .unsupported_file_type
    ∧ main_run [("data.csv", ([] : Table))] ⟨"data.csv", ".CSV"⟩
        = ⟨0, true, true⟩ :=
  ⟨((C9_load_error_handling [("data.csv", ([] : Table))]
      ⟨"nope.csv", ".csv"⟩).1 rfl).1,
    ((C9_load_error_handling [("d.xyz", ([] : Table))]
      ⟨"d.xyz", ".xyz"⟩).2.1 [] rfl (by decide) (by decide) (by decide)
        (by decide)).1,
    ((C9_load_error_handling [("data.csv", ([] : Table))]
      ⟨"data.csv", ".CSV"⟩).2.2 [] rfl (Or.inl (by decide))).2⟩

/-! ### Claim C3: shape of the correlation matrices -/

lemma pairedObs_symm (xs ys : List (Option Val)) :
    pairedObs ys xs = (pairedObs xs ys).map Prod.swap := by
  unfold pairedObs
  rw [← List.zip_swap xs ys, List.filterMap_map, List.map_filterMap]
  congr 1
  funext p
  rcases p with ⟨a, b⟩
  rcases a with _ | (a | a) <;> rcases b with _ | (b | b) <;> rfl

lemma pairedObs_self (xs : List (Option Val)) :
    pairedObs xs xs = (obsOf xs).map (fun a => (a, a)) := by
  induction xs with
  | nil => rfl
  | cons o t ih =>
    rcases o with _ | (a | a) <;>
      simp only [pairedObs, obsOf, List.zip_cons_cons, List.filterMap_cons]
        at ih ⊢ <;>
      simp [ih]

lemma ssqDev_nonneg (l : List ℚ) : 0 ≤ ssqDev l := by
  apply List.sum_nonneg
  intro x hx
  obtain ⟨a, _, rfl⟩ := List.mem_map.mp hx
  exact sq_nonneg _

/-- Pearson correlation is symmetric in its two series. -/
lemma pearson_symm (xs ys : List (Option Val)) :
    pearson ys xs = pearson xs ys := by
  unfold pearson
  rw [pairedObs_symm xs ys]
  have hfst : ((pairedObs xs ys).map Prod.swap).map Prod.fst
      = (pairedObs xs ys).map Prod.snd := by
    rw [List.map_map]
    rfl
  have hsnd : ((pairedObs xs ys).map Prod.swap).map Prod.snd
      = (pairedObs xs ys).map Prod.fst := by
    rw [List.map_map]
    rfl
  simp only [hfst, hsnd, List.length_map]
  have hsum : (((pairedObs xs ys).map Prod.swap).map (fun p =>
        (p.1 - meanL ((pairedObs xs ys).map Prod.snd))
          * (p.2 - meanL ((pairedObs xs ys).map Prod.fst)))).sum
      = ((pairedObs xs ys).map (fun p =>
        (p.1 - meanL ((pairedObs xs ys).map Prod.fst))
          * (p.2 - meanL ((pairedObs xs ys).map Prod.snd)))).sum := by
    rw [List.map_map]
    apply congrArg
    apply List.map_congr_left
    intro p _
    simp [mul_comm]
  rw [hsum]
  have hcond : ((pairedObs xs ys).length = 0
        ∨ ssqDev ((pairedObs xs ys).map Prod.snd) = 0
        ∨ ssqDev ((pairedObs xs ys).map Prod.fst) = 0)
      ↔ ((pairedObs xs ys).length = 0
        ∨ ssqDev ((pairedObs xs ys).map Prod.fst) = 0
        ∨ ssqDev ((pairedObs xs ys).map Prod.snd) = 0) := by
    tauto
  rw [mul_comm ((ssqDev ((pairedObs xs ys).map Prod.snd) : ℚ) : ℝ)
    ((ssqDev ((pairedObs xs ys).map Prod.fst) : ℚ) : ℝ)]
  rw [if_congr hcond rfl rfl]

/-- Pearson correlation of a nonconstant series with itself is exactly 1. -/
lemma pearson_self {xs : List (Option Val)} (h : ssqDev (obsOf xs) ≠ 0) :
    pearson xs xs = some 1 := by
  unfold pearson
  rw [pairedObs_self xs]
  have hfst : (((obsOf xs).map (fun a => (a, a))).map Prod.fst) = obsOf xs := by
    rw [List.map_map]
    exact List.map_id _
  have hsnd : (((obsOf xs).map (fun a => (a, a))).map Prod.snd) = obsOf xs := by
    rw [List.map_map]
    exact List.map_id _
  simp only [hfst, hsnd, List.length_map]
  have hne : ¬ ((obsOf xs).length = 0 ∨ ssqDev (obsOf xs) = 0
      ∨ ssqDev (obsOf xs) = 0) := by
    push_neg
    refine ⟨fun h0 => h ?_, h, h⟩
    rw [List.length_eq_zero.mp h0]
    rfl
  rw [if_neg hne]
  have hsum : (((obsOf xs).map (fun a => (a, a))).map (fun p =>
        (p.1 - meanL (obsOf xs)) * (p.2 - meanL (obsOf xs)))).sum
      = ssqDev (obsOf xs) := by
    rw [List.map_map]
    unfold ssqDev
    apply congrArg
    apply List.map_congr_left
    intro a _
    simp [sq]
  rw [hsum]
  have hpos : (0 : ℝ) < ((ssqDev (obsOf xs) : ℚ) : ℝ) := by
    have hq : (0 : ℚ) < ssqDev (obsOf xs) :=
      lt_of_le_of_ne (ssqDev_nonneg _) (Ne.symm h)
    exact_mod_cast hq
  rw [Real.sqrt_mul_self hpos.le, div_self hpos.ne']

lemma cramers_v_sq_of_total_zero {m : CTable} (h : grandTotal m = 0) :
    cramers_v_sq m = 0 := by
  simp [cramers_v_sq, h]

/-- Exchanging the two summation orders of a rectangular family. -/
lemma list_sum_comm {β γ : Type*} (A : List β) (B : List γ) (f : β → γ → ℕ) :
    (A.map (fun a => (B.map (fun b => f a b)).sum)).sum
      = (B.map (fun b => (A.map (fun a => f a b)).sum)).sum := by
  induction A with
  | nil => simp
  | cons a A ih =>
    simp only [List.map_cons, List.sum_cons, ih]
    rw [← List.sum_map_add]

/-- `chi2F` only looks at cells inside the `r × k` grid. -/
lemma chi2F_congr {r k : ℕ} {O O' : ℕ → ℕ → ℚ}
    (h : ∀ i < r, ∀ j < k, O i j = O' i j) : chi2F r k O = chi2F r k O' := by
  have hr : ∀ i < r, rTot k O i = rTot k O' i := fun i hi =>
    Finset.sum_congr rfl fun j hj => h i hi j (Finset.mem_range.mp hj)
  have hc : ∀ j < k, cTot r O j = cTot r O' j := fun j hj =>
    Finset.sum_congr rfl fun i hi => h i (Finset.mem_range.mp hi) j hj
  have hn : nTot r k O = nTot r k O' := Finset.sum_congr rfl fun i hi =>
    hr i (Finset.mem_range.mp hi)
  unfold chi2F
  apply Finset.sum_congr rfl
  intro i hi
  apply Finset.sum_congr rfl
  intro j hj
  rw [h i (Finset.mem_range.mp hi) j (Finset.mem_range.mp hj),
    hr i (Finset.mem_range.mp hi), hc j (Finset.mem_range.mp hj), hn]

/-- Cell access into a nested-`map` matrix. -/
lemma entry_matrix {β γ : Type*} (A : List β) (B : List γ) (f : β → γ → ℕ)
    {i j : ℕ} (hi : i < A.length) (hj : j < B.length) :
    entry (A.map (fun a => B.map (fun b => f a b))) i j
      = f (A.get ⟨i, hi⟩) (B.get ⟨j, hj⟩) := by
  unfold entry
  have hrow : (A.map (fun a => B.map (fun b => f a b))).getD i []
      = B.map (fun b => f (A.get ⟨i, hi⟩) b) := by
    rw [List.getD_eq_getElem _ _ (by simpa using hi), List.getElem_map]
    rfl
  rw [hrow]
  rw [List.getD_eq_getElem _ _ (by simpa using hj), List.getElem_map]
  rfl

lemma matrix_rect {β γ : Type*} (A : List β) (B : List γ) (f : β → γ → ℕ) :
    Rectangular (A.map (fun a => B.map (fun b => f a b))) := by
  cases A with
  | nil => intro row hrow; cases hrow
  | cons a0 A' =>
    intro row hrow
    obtain ⟨a, _, rfl⟩ := List.mem_map.mp hrow
    simp [numCols]

lemma grandTotal_matrix {β γ : Type*} (A : List β) (B : List γ)
    (f : β → γ → ℕ) :
    grandTotal (A.map (fun a => B.map (fun b => f a b)))
      = (A.map (fun a => (B.map (fun b => f a b)).sum)).sum := by
  unfold grandTotal
  rw [List.map_map]
  rfl

/-- `cramers_v_sq` is unchanged when the grand total, chi-squared and
(swapped) dimensions agree. -/
lemma cramers_v_sq_swap {m m' : CTable} (hn : grandTotal m' = grandTotal m)
    (hchi : ss_chi2 m' = ss_chi2 m) (hr : numRows m' = numCols m)
    (hk : numCols m' = numRows m) : cramers_v_sq m' = cramers_v_sq m := by
  simp only [cramers_v_sq]
  rw [hn, hchi, hr, hk]
  by_cases h0 : grandTotal m = 0
  · simp [h0]
  · simp only [if_neg h0]
    by_cases h1 : 1 < grandTotal m
    · simp only [if_pos h1]
      rw [show ((numRows m : ℚ) - 1) * ((numCols m : ℚ) - 1)
          = ((numCols m : ℚ) - 1) * ((numRows m : ℚ) - 1) from mul_comm _ _]
      rw [min_comm
        ((numRows m : ℚ) - ((numRows m : ℚ) - 1) ^ 2 / ((grandTotal m : ℚ) - 1) - 1)
        ((numCols m : ℚ) - ((numCols m : ℚ) - 1) ^ 2 / ((grandTotal m : ℚ) - 1) - 1)]
    · simp only [if_neg h1]

/-- Transposition of a nested-`map` count matrix with nonempty label
lists leaves `cramers_v_sq` unchanged. -/
lemma cramers_v_sq_matrix_transpose_cons {β γ : Type*} (a0 : β) (A' : List β)
    (b0 : γ) (B' : List γ) (f : β → γ → ℕ) :
    cramers_v_sq ((b0 :: B').map (fun b => (a0 :: A').map (fun a => f a b)))
      = cramers_v_sq ((a0 :: A').map (fun a => (b0 :: B').map (fun b => f a b))) := by
  have hn : grandTotal ((b0 :: B').map (fun b => (a0 :: A').map (fun a => f a b)))
      = grandTotal ((a0 :: A').map (fun a => (b0 :: B').map (fun b => f a b))) := by
    rw [grandTotal_matrix, grandTotal_matrix, list_sum_comm]
  have hrM : numRows ((a0 :: A').map (fun a => (b0 :: B').map (fun b => f a b)))
      = (a0 :: A').length := List.length_map _ _
  have hkM : numCols ((a0 :: A').map (fun a => (b0 :: B').map (fun b => f a b)))
      = (b0 :: B').length := by
    simp [numCols]
  have hrMT : numRows ((b0 :: B').map (fun b => (a0 :: A').map (fun a => f a b)))
      = (b0 :: B').length := List.length_map _ _
  have hkMT : numCols ((b0 :: B').map (fun b => (a0 :: A').map (fun a => f a b)))
      = (a0 :: A').length := by
    simp [numCols]
  have e0 : ss_chi2 ((b0 :: B').map (fun b => (a0 :: A').map (fun a => f a b)))
      = chi2F (numRows ((b0 :: B').map (fun b => (a0 :: A').map (fun a => f a b))))
          (numCols ((b0 :: B').map (fun b => (a0 :: A').map (fun a => f a b))))
          (fun i j => ((entry ((b0 :: B').map (fun b => (a0 :: A').map
            (fun a => f a b))) i j : ℕ) : ℚ)) :=
    ss_chi2_eq_chi2F (matrix_rect (b0 :: B') (a0 :: A') (fun b a => f a b))
      (by simp [numRows]) (by rw [hkMT]; simp)
  have e0' : ss_chi2 ((a0 :: A').map (fun a => (b0 :: B').map (fun b => f a b)))
      = chi2F (numRows ((a0 :: A').map (fun a => (b0 :: B').map (fun b => f a b))))
          (numCols ((a0 :: A').map (fun a => (b0 :: B').map (fun b => f a b))))
          (fun i j => ((entry ((a0 :: A').map (fun a => (b0 :: B').map
            (fun b => f a b))) i j : ℕ) : ℚ)) :=
    ss_chi2_eq_chi2F (matrix_rect (a0 :: A') (b0 :: B') f)
      (by simp [numRows]) (by rw [hkM]; simp)
  rw [hrMT, hkMT] at e0
  rw [hrM, hkM] at e0'
  have e1 : chi2F (b0 :: B').length (a0 :: A').length
      (fun i j => ((entry ((b0 :: B').map (fun b => (a0 :: A').map
        (fun a => f a b))) i j : ℕ) : ℚ))
      = chi2F (b0 :: B').length (a0 :: A').length
        (fun i j => ((entry ((a0 :: A').map (fun a => (b0 :: B').map
          (fun b => f a b))) j i : ℕ) : ℚ)) :=
    chi2F_congr (fun i hi j hj => by
      rw [entry_matrix (b0 :: B') (a0 :: A') (fun b a => f a b) hi hj,
        entry_matrix (a0 :: A') (b0 :: B') f hj hi])
  have e2 := chi2F_transpose (a0 :: A').length (b0 :: B').length
    (fun i j => ((entry ((a0 :: A').map (fun a => (b0 :: B').map
      (fun b => f a b))) i j : ℕ) : ℚ))
  have hchi : ss_chi2 ((b0 :: B').map (fun b => (a0 :: A').map (fun a => f a b)))
      = ss_chi2 ((a0 :: A').map (fun a => (b0 :: B').map (fun b => f a b))) :=
    e0.trans (e1.trans (e2.trans e0'.symm))
  exact cramers_v_sq_swap hn hchi (hrMT.trans hkM.symm) (hkMT.trans hrM.symm)

/-- Transposing a nested-`map` count matrix leaves `cramers_v_sq`
unchanged. -/
lemma cramers_v_sq_matrix_transpose {β γ : Type*} (A : List β) (B : List γ)
    (f : β → γ → ℕ) :
    cramers_v_sq (B.map (fun b => A.map (fun a => f a b)))
      = cramers_v_sq (A.map (fun a => B.map (fun b => f a b))) := by
  have hn : grandTotal (B.map (fun b => A.map (fun a => f a b)))
      = grandTotal (A.map (fun a => B.map (fun b => f a b))) := by
    rw [grandTotal_matrix, grandTotal_matrix, list_sum_comm]
  rcases A with _ | ⟨a0, A'⟩
  · have h1 : grandTotal (B.map (fun b => ([] : List β).map (fun a => f a b)))
        = 0 := by
      unfold grandTotal
      rw [List.map_map]
      apply List.sum_eq_zero
      intro x hx
      obtain ⟨b, _, rfl⟩ := List.mem_map.mp hx
      rfl
    have h2 : grandTotal (([] : List β).map
        (fun a => B.map (fun b => f a b))) = 0 := rfl
    rw [cramers_v_sq_of_total_zero h1, cramers_v_sq_of_total_zero h2]
  · rcases B with _ | ⟨b0, B'⟩
    · have h1 : grandTotal (([] : List γ).map
          (fun b => (a0 :: A').map (fun a => f a b))) = 0 := rfl
      have h2 : grandTotal ((a0 :: A').map
          (fun a => ([] : List γ).map (fun b => f a b))) = 0 := by
        unfold grandTotal
        rw [List.map_map]
        apply List.sum_eq_zero
        intro x hx
        obtain ⟨a, _, rfl⟩ := List.mem_map.mp hx
        rfl
      rw [cramers_v_sq_of_total_zero h1, cramers_v_sq_of_total_zero h2]
    · exact cramers_v_sq_matrix_transpose_cons a0 A' b0 B' f

lemma jointObs_symm (xs ys : List (Option Val)) :
    jointObs ys xs = (jointObs xs ys).map Prod.swap := by
  unfold jointObs
  rw [← List.zip_swap xs ys, List.filterMap_map, List.map_filterMap]
  congr 1
  funext p
  rcases p with ⟨a, b⟩
  rcases a with _ | a <;> rcases b with _ | b <;> rfl

/-- `crosstab ys xs` is literally the transpose of `crosstab xs ys`. -/
lemma crosstab_symm (xs ys : List (Option Val)) :
    crosstab ys xs = ((jointObs xs ys).map Prod.snd).dedup.map (fun b =>
      ((jointObs xs ys).map Prod.fst).dedup.map (fun a =>
        (jointObs xs ys).countP (fun q => decide (q = (a, b))))) := by
  unfold crosstab
  rw [jointObs_symm]
  have h1 : ((jointObs xs ys).map Prod.swap).map Prod.fst
      = (jointObs xs ys).map Prod.snd := by
    rw [List.map_map]
    rfl
  have h2 : ((jointObs xs ys).map Prod.swap).map Prod.snd
      = (jointObs xs ys).map Prod.fst := by
    rw [List.map_map]
    rfl
  simp only [h1, h2]
  apply List.map_congr_left
  intro b _
  apply List.map_congr_left
  intro a _
  rw [List.countP_map]
  congr 1
  funext q
  rcases q with ⟨x, y⟩
  simp only [Function.comp, Prod.swap_prod_mk]
  rw [decide_eq_decide]
  simp [Prod.ext_iff, and_comm]

/-- Cramér's V of the two crosstabs of a pair of columns coincide. -/
lemma cramers_v_crosstab_symm (xs ys : List (Option Val)) :
    cramers_v (crosstab ys xs) = cramers_v (crosstab xs ys) := by
  unfold cramers_v
  apply congrArg
  apply congrArg
  rw [crosstab_symm]
  exact cramers_v_sq_matrix_transpose
    ((jointObs xs ys).map Prod.fst).dedup
    ((jointObs xs ys).map Prod.snd).dedup
    (fun a b => (jointObs xs ys).countP (fun q => decide (q = (a, b))))

/-- Cell access into a square nested-`map` matrix. -/
lemma nested_map_getD {β δ : Type*} (nc : List β) (g : β → β → δ)
    (dr : List δ) (dv : δ) {i j : ℕ} (hi : i < nc.length)
    (hj : j < nc.length) :
    ((nc.map (fun cx => nc.map (fun cy => g cx cy))).getD i dr).getD j dv
      = g (nc.get ⟨i, hi⟩) (nc.get ⟨j, hj⟩) := by
  have hrow : (nc.map (fun cx => nc.map (fun cy => g cx cy))).getD i dr
      = nc.map (fun cy => g (nc.get ⟨i, hi⟩) cy) := by
    rw [List.getD_eq_getElem _ _ (by simpa using hi), List.getElem_map]
    rfl
  rw [hrow, List.getD_eq_getElem _ _ (by simpa using hj), List.getElem_map]
  rfl

/-- C3 counterexample: a table whose only numeric column is constant: the
numeric correlation matrix is the 1×1 matrix whose single (diagonal) entry
is NaN (pandas `corr` divides by a zero standard deviation), not 1.0 —
refuting "1.0 on every diagonal entry" and "a table with exactly one
numeric column yields a 1×1 numeric matrix whose single entry is 1.0". -/
theorem C3_matrix_counterexample :
    (numeric_correlation
        [⟨"x", Dtype.floatDT, [some (Sum.inl 1), some (Sum.inl 1)]⟩]).1
      = ["x"]
    ∧ (numeric_correlation
        [⟨"x", Dtype.floatDT, [some (Sum.inl 1), some (Sum.inl 1)]⟩]).2
      = [[none]] := by
  have hps : pairedObs [some (Sum.inl 1), some (Sum.inl 1)]
      [some (Sum.inl 1), some (Sum.inl 1)]
      = [((1 : ℚ), (1 : ℚ)), ((1 : ℚ), (1 : ℚ))] := rfl
  have hp : pearson [some (Sum.inl 1), some (Sum.inl 1)]
      [some (Sum.inl 1), some (Sum.inl 1)] = none := by
    unfold pearson
    rw [hps]
    rw [if_pos]
    right
    left
    norm_num [ssqDev, meanL]
  constructor
  · rfl
  · show [[pearson [some (Sum.inl 1), some (Sum.inl 1)]
        [some (Sum.inl 1), some (Sum.inl 1)]]] = [[none]]
    rw [hp]

/-- C3 (amended): both correlation matrices are square and symmetric in
row/column label order; the categorical matrix has 1.0 on every diagonal
entry; a numeric diagonal entry is 1.0 provided the column's non-missing
values are not all equal (nonzero squared-deviation sum) and NaN
otherwise; a table with exactly one numeric column (nonconstant) yields
the 1×1 matrix `[[1.0]]`; zero numeric columns yield an empty numeric
matrix and fewer than 2 categorical columns an empty categorical matrix. -/
theorem C3_matrix_shape_amended (t : Table) :
    ((numeric_correlation t).2.length = (numeric_correlation t).1.length
      ∧ ∀ row ∈ (numeric_correlation t).2,
          row.length = (numeric_correlation t).1.length)
    ∧ (∀ i j, i < (numeric_correlation t).2.length →
        j < (numeric_correlation t).2.length →
        ((numeric_correlation t).2.getD i []).getD j none
          = ((numeric_correlation t).2.getD j []).getD i none)
    ∧ (∀ i, ∀ hi : i < (t.filter (fun c => is_numeric c)).length,
        ssqDev (obsOf ((t.filter (fun c => is_numeric c)).get ⟨i, hi⟩).vals) ≠ 0 →
        ((numeric_correlation t).2.getD i []).getD i none = some 1)
    ∧ (t.filter (fun c => is_numeric c) = [] → numeric_correlation t = ([], []))
    ∧ (∀ c : Column, t.filter (fun c => is_numeric c) = [c] →
        ssqDev (obsOf c.vals) ≠ 0 →
        numeric_correlation t = ([c.name], [[some 1]]))
    ∧ ((categorical_correlation t).2.length = (categorical_correlation t).1.length
      ∧ ∀ row ∈ (categorical_correlation t).2,
          row.length = (categorical_correlation t).1.length)
    ∧ (∀ i j, i < (categorical_correlation t).2.length →
        j < (categorical_correlation t).2.length →
        ((categorical_correlation t).2.getD i []).getD j 0
          = ((categorical_correlation t).2.getD j []).getD i 0)
    ∧ (∀ i, i < (categorical_correlation t).2.length →
        ((categorical_correlation t).2.getD i []).getD i 0 = 1)
    ∧ ((t.filter (fun c => is_categorical 50 c)).length < 2 →
        categorical_correlation t = ([], [])) := by
  constructor
  · -- numeric: square
    unfold numeric_correlation
    by_cases he : (t.filter (fun c => is_numeric c)).isEmpty
    · rw [if_pos he]
      exact ⟨rfl, fun row hrow => absurd hrow (List.not_mem_nil row)⟩
    · rw [if_neg he]
      refine ⟨by simp, fun row hrow => ?_⟩
      obtain ⟨c, _, rfl⟩ := List.mem_map.mp hrow
      simp
  constructor
  · -- numeric: symmetry
    unfold numeric_correlation
    by_cases he : (t.filter (fun c => is_numeric c)).isEmpty
    · rw [if_pos he]
      intro i j hi hj
      simp at hi
    · rw [if_neg he]
      intro i j hi hj
      simp only [List.length_map] at hi hj
      rw [nested_map_getD _ _ _ _ hi hj, nested_map_getD _ _ _ _ hj hi]
      exact pearson_symm _ _
  constructor
  · -- numeric: diagonal
    intro i hi hvar
    unfold numeric_correlation
    have he : ¬ (t.filter (fun c => is_numeric c)).isEmpty := by
      intro he
      rw [List.isEmpty_iff] at he
      rw [he] at hi
      cases hi
    rw [if_neg he]
    show ((List.map _ (t.filter (fun c => is_numeric c))).getD i []).getD i none
      = some 1
    rw [nested_map_getD _ _ _ _ hi hi]
    exact pearson_self hvar
  constructor
  · -- numeric: empty
    intro h0
    unfold numeric_correlation
    rw [if_pos (by rw [List.isEmpty_iff]; exact h0)]
  constructor
  · -- numeric: singleton
    intro c hc hvar
    unfold numeric_correlation
    rw [show (t.filter (fun c => is_numeric c)) = [c] from hc]
    rw [if_neg (by simp)]
    show ([c.name], [[pearson c.vals c.vals]]) = ([c.name], [[some 1]])
    rw [pearson_self hvar]
  constructor
  · -- categorical: square
    unfold categorical_correlation
    by_cases hlt : (t.filter (fun c => is_categorical 50 c)).length < 2
    · rw [if_pos hlt]
      exact ⟨rfl, fun row hrow => absurd hrow (List.not_mem_nil row)⟩
    · rw [if_neg hlt]
      refine ⟨by simp, fun row hrow => ?_⟩
      obtain ⟨c, _, rfl⟩ := List.mem_map.mp hrow
      simp
  constructor
  · -- categorical: symmetry
    unfold categorical_correlation
    by_cases hlt : (t.filter (fun c => is_categorical 50 c)).length < 2
    · rw [if_pos hlt]
      intro i j hi hj
      simp at hi
    · rw [if_neg hlt]
      intro i j hi hj
      simp only [List.length_map] at hi hj
      rw [nested_map_getD _ _ _ _ hi hj, nested_map_getD _ _ _ _ hj hi]
      by_cases hname : ((t.filter (fun c => is_categorical 50 c)).get ⟨i, hi⟩).name
          = ((t.filter (fun c => is_categorical 50 c)).get ⟨j, hj⟩).name
      · rw [if_pos hname, if_pos hname.symm]
      · rw [if_neg hname, if_neg (fun h => hname h.symm)]
        exact (cramers_v_crosstab_symm _ _).symm
  constructor
  · -- categorical: diagonal
    unfold categorical_correlation
    by_cases hlt : (t.filter (fun c => is_categorical 50 c)).length < 2
    · rw [if_pos hlt]
      intro i hi
      simp at hi
    · rw [if_neg hlt]
      intro i hi
      simp only [List.length_map] at hi
      rw [nested_map_getD _ _ _ _ hi hi]
      rw [if_pos rfl]
  · -- categorical: empty
    intro hlt
    unfold categorical_correlation
    rw [if_pos hlt]

theorem C3_matrix_shape_amended_witness :
    ((numeric_correlation
        [⟨"n", Dtype.floatDT, [some (Sum.inl 1), some (Sum.inl 2)]⟩,
         ⟨"c1", Dtype.objDT, [some (Sum.inr "a"), some (Sum.inr "b")]⟩,
         ⟨"c2", Dtype.objDT, [some (Sum.inr "a"), some (Sum.inr "a")]⟩]).2.getD 0 []).getD 0 none
      = some 1
    ∧ numeric_correlation ([] : Table) = ([], [])
    ∧ ((categorical_correlation
        [⟨"n", Dtype.floatDT, [some (Sum.inl 1), some (Sum.inl 2)]⟩,
         ⟨"c1", Dtype.objDT, [some (Sum.inr "a"), some (Sum.inr "b")]⟩,
         ⟨"c2", Dtype.objDT, [some (Sum.inr "a"), some (Sum.inr "a")]⟩]).2.getD 0 []).getD 0 0
      = 1
    ∧ ((categorical_correlation
        [⟨"n", Dtype.floatDT, [some (Sum.inl 1), some (Sum.inl 2)]⟩,
         ⟨"c1", Dtype.objDT, [some (Sum.inr "a"), some (Sum.inr "b")]⟩,
         ⟨"c2", Dtype.objDT, [some (Sum.inr "a"), some (Sum.inr "a")]⟩]).2.getD 0 []).getD 1 0
      = ((categorical_correlation
        [⟨"n", Dtype.floatDT, [some (Sum.inl 1), some (Sum.inl 2)]⟩,
         ⟨"c1", Dtype.objDT, [some (Sum.inr "a"), some (Sum.inr "b")]⟩,
         ⟨"c2", Dtype.objDT, [some (Sum.inr "a"), some (Sum.inr "a")]⟩]).2.getD 1 []).getD 0 0
    ∧ categorical_correlation ([] : Table) = ([], []) := by
  have hlen2 : (categorical_correlation
      [⟨"n", Dtype.floatDT, [some (Sum.inl 1), some (Sum.inl 2)]⟩,
       ⟨"c1", Dtype.objDT, [some (Sum.inr "a"), some (Sum.inr "b")]⟩,
       ⟨"c2", Dtype.objDT, [some (Sum.inr "a"), some (Sum.inr "a")]⟩]).2.length = 2 := by
    have hsq := (C3_matrix_shape_amended
      [⟨"n", Dtype.floatDT, [some (Sum.inl 1), some (Sum.inl 2)]⟩,
       ⟨"c1", Dtype.objDT, [some (Sum.inr "a"), some (Sum.inr "b")]⟩,
       ⟨"c2", Dtype.objDT, [some (Sum.inr "a"), some (Sum.inr "a")]⟩]).2.2.2.2.2.1.1
    rw [hsq]
    have hlab : (categorical_correlation
        [⟨"n", Dtype.floatDT, [some (Sum.inl 1), some (Sum.inl 2)]⟩,
         ⟨"c1", Dtype.objDT, [some (Sum.inr "a"), some (Sum.inr "b")]⟩,
         ⟨"c2", Dtype.objDT, [some (Sum.inr "a"), some (Sum.inr "a")]⟩]).1
        = ["c1", "c2"] := by
      unfold categorical_correlation
      rw [if_neg (by decide)]
      decide
    rw [hlab]
    rfl
  have hi0 : 0 < (List.filter (fun c => is_numeric c)
      [⟨"n", Dtype.floatDT, [some (Sum.inl 1), some (Sum.inl 2)]⟩,
       ⟨"c1", Dtype.objDT, [some (Sum.inr "a"), some (Sum.inr "b")]⟩,
       ⟨"c2", Dtype.objDT, [some (Sum.inr "a"), some (Sum.inr "a")]⟩]).length := by
    decide
  refine ⟨?_, ?_, ?_, ?_, ?_⟩
  · apply (C3_matrix_shape_amended _).2.2.1 0 hi0
    show ssqDev (obsOf [some (Sum.inl 1), some (Sum.inl 2)]) ≠ 0
    have hobs : obsOf [some (Sum.inl 1), some (Sum.inl 2)] = [(1 : ℚ), 2] := rfl
    rw [hobs]
    norm_num [ssqDev, meanL]
  · exact (C3_matrix_shape_amended []).2.2.2.1 rfl
  · exact (C3_matrix_shape_amended _).2.2.2.2.2.2.2.1 0 (by rw [hlen2]; norm_num)
  · exact (C3_matrix_shape_amended _).2.2.2.2.2.2.1 0 1
      (by rw [hlen2]; norm_num) (by rw [hlen2]; norm_num)
  · exact (C3_matrix_shape_amended []).2.2.2.2.2.2.2.2 (by decide)

end InsightMapping
